import Mathlib

/-!
Shallow embedding of the Vyomanaut replication control plane.

Source files embedded here:
  - apps/backend/src/utils/crypto.ts            (crypto pipeline)
  - apps/backend/src/modules/files/chunking.service.ts  (chunker)
  - apps/backend/src/modules/chunks/assignment.service.ts (placement)
  - apps/backend/src/modules/devices/device.service.ts  (device registry)
  - replication health service, chunk distribution service,
    chunk retrieval service, chunk deletion service.

Conventions of the embedding:
  - Byte buffers are modelled as lists of naturals (a real byte is the
    sub-range 0..255; none of the verified properties depend on the bound).
  - Hex and base64 encodings at service boundaries are bijections between
    encoded strings and byte buffers; the embedding works directly on the
    decoded byte buffers.
  - Node crypto primitives (AES-256-GCM, SHA-256, HKDF, HMAC) are modelled
    as an ideal authenticated-encryption functionality: a structure of
    functions together with the standard correctness and binding laws.
    The tamper-detection guarantees of the pipeline hold in this ideal
    model (for the concrete primitives they hold computationally).
  - Database-backed services are state transformers on an explicit record
    of device, chunk and placement tables; a Prisma update that can reject
    (record not found) is modelled with Except.
  - JavaScript number arithmetic on scores is modelled exactly over the
    rationals.
-/

namespace Vyom

/-- Byte buffers (Node Buffer): lists of byte values. -/
abbrev Bytes := List Nat

/-! ### Small list utilities used by the embedding -/

/-- Decimal digit list of a natural number, most significant first,
mirroring JavaScript template interpolation of a non-negative integer
(0 prints as "0"). -/
def decDigits (n : Nat) : List Nat :=
  if n = 0 then [0] else (Nat.digits 10 n).reverse

/-- ASCII bytes of the decimal rendering of a natural number. -/
def decAscii (n : Nat) : Bytes :=
  (decDigits n).map (· + 48)

theorem digits_eq_single_zero_imp {n : Nat} (h : Nat.digits 10 n = [0]) : n = 0 := by
  have h2 := Nat.ofDigits_digits 10 n
  rw [h] at h2
  simpa [Nat.ofDigits] using h2.symm

theorem decDigits_injective : Function.Injective decDigits := by
  intro a b h
  unfold decDigits at h
  split_ifs at h with ha hb hb
  · exact ha.trans hb.symm
  · exfalso
    apply hb
    apply digits_eq_single_zero_imp
    have := congrArg List.reverse h
    simpa using this.symm
  · exfalso
    apply ha
    apply digits_eq_single_zero_imp
    have := congrArg List.reverse h
    simpa using this
  · have hd : Nat.digits 10 a = Nat.digits 10 b := by
      have := congrArg List.reverse h
      simpa using this
    have h1 := Nat.ofDigits_digits 10 a
    rw [hd] at h1
    exact h1.symm.trans (Nat.ofDigits_digits 10 b)

theorem decAscii_injective : Function.Injective decAscii := by
  intro a b h
  apply decDigits_injective
  refine List.map_injective_iff.mpr ?_ h
  intro x y hxy
  simpa using hxy

/-! ### Crypto primitives (ideal model of Node crypto)

AES-256-GCM is modelled as a deterministic AEAD given by an encryption
function returning ciphertext and authentication tag, and a decryption
function returning the plaintext or failing.  The laws are the ideal
functionality of an AEAD: round trip, soundness (decryption succeeds only
on honestly produced pairs), tag binding (the tag commits to key, iv, aad
and plaintext) and ciphertext determinism in the plaintext.  SHA-256 is an
arbitrary function (no law is needed), HKDF-SHA256 is injective in
(ikm, salt, info) and HMAC-SHA256 produces 32 bytes.

AEAD keys (the KEK and derived chunk keys) are opaque to the pipeline:
the source only passes them between primitives and zeroes them, so they
are modelled by a type parameter κ. -/
structure CryptoPrimitives (κ : Type) where
  aeadEnc : κ → Bytes → Bytes → Bytes → Bytes × Bytes
  aeadDec : κ → Bytes → Bytes → Bytes → Bytes → Option Bytes
  sha256 : Bytes → Bytes
  hkdf : Bytes → Bytes → Bytes → κ
  hmac : κ → Bytes → Bytes
  enc_ct_length : ∀ k iv aad pt, (aeadEnc k iv aad pt).1.length = pt.length
  enc_tag_length : ∀ k iv aad pt, (aeadEnc k iv aad pt).2.length = 16
  dec_enc : ∀ k iv aad pt,
    aeadDec k iv aad (aeadEnc k iv aad pt).1 (aeadEnc k iv aad pt).2 = some pt
  dec_sound : ∀ k iv aad ct tag pt,
    aeadDec k iv aad ct tag = some pt → aeadEnc k iv aad pt = (ct, tag)
  tag_binding : ∀ k iv aad pt k' iv' aad' pt',
    (aeadEnc k iv aad pt).2 = (aeadEnc k' iv' aad' pt').2 →
    k = k' ∧ iv = iv' ∧ aad = aad' ∧ pt = pt'
  ct_determines_pt : ∀ k iv aad pt pt',
    (aeadEnc k iv aad pt).1 = (aeadEnc k iv aad pt').1 → pt = pt'
  hkdf_injective : ∀ ikm salt info ikm' salt' info',
    hkdf ikm salt info = hkdf ikm' salt' info' →
    ikm = ikm' ∧ salt = salt' ∧ info = info'
  hmac_length : ∀ k m, (hmac k m).length = 32

/-- Constants from utils/crypto.ts. -/
def IV_LENGTH : Nat := 12
def AUTH_TAG_LENGTH : Nat := 16
def KEY_LENGTH : Nat := 32

/-- Error kinds thrown by utils/crypto.ts (thrown Error messages are
represented by constructors). -/
inductive CryptoErr
  | invalidWrappedDEK    -- "Invalid wrapped DEK format"
  | unwrapFailed         -- "Failed to unwrap DEK: Invalid KEK or corrupted data"
  | invalidDEKLength     -- "DEK must be 32 bytes"
  | invalidIVLength      -- "Invalid IV length: ..."
  | invalidTagLength     -- "Invalid auth tag length: ..."
  | hashMismatch         -- "Ciphertext hash mismatch: Data corrupted"
  | decryptFailed        -- "Decryption failed: Invalid key, AAD, or tampered data"
  deriving DecidableEq, Repr

/-- generateWrappedDEK, with the random 32-byte DEK and the random 12-byte
nonce passed explicitly (crypto.randomBytes in the source).  Returns the
wrapped DEK (nonce, auth tag and encrypted DEK concatenated; the hex
rendering at the boundary is elided). -/
def generateWrappedDEK {κ : Type} (P : CryptoPrimitives κ) (kek : κ) (dek nonce : Bytes) : Bytes :=
  let e := P.aeadEnc kek nonce [] dek
  nonce ++ e.2 ++ e.1

/-- unwrapDEK from utils/crypto.ts: parse nonce, auth tag and encrypted
DEK, AEAD-decrypt under the KEK. -/
def unwrapDEK {κ : Type} (P : CryptoPrimitives κ) (kek : κ) (wrappedDEK : Bytes) :
    Except CryptoErr Bytes :=
  if wrappedDEK.length ≠ IV_LENGTH + AUTH_TAG_LENGTH + KEY_LENGTH then
    .error .invalidWrappedDEK
  else
    let iv := wrappedDEK.take IV_LENGTH
    let authTag := (wrappedDEK.drop IV_LENGTH).take AUTH_TAG_LENGTH
    let encryptedDEK := wrappedDEK.drop (IV_LENGTH + AUTH_TAG_LENGTH)
    match P.aeadDec kek iv [] encryptedDEK authTag with
    | some dek => .ok dek
    | none => .error .unwrapFailed

/-- deriveChunkKey from utils/crypto.ts: HKDF with salt the UTF-8 bytes of
the file id and info the UTF-8 bytes of "chunk-" followed by the decimal
chunk index.  The file id is carried as its UTF-8 byte list. -/
def chunkKeyInfo (chunkIndex : Nat) : Bytes :=
  [99, 104, 117, 110, 107, 45] ++ decAscii chunkIndex   -- "chunk-" ++ index

def deriveChunkKey {κ : Type} (P : CryptoPrimitives κ) (dek : Bytes)
    (fileId : Bytes) (chunkIndex : Nat) : Except CryptoErr κ :=
  if dek.length ≠ KEY_LENGTH then .error .invalidDEKLength
  else .ok (P.hkdf dek fileId (chunkKeyInfo chunkIndex))

/-- deriveChunkIV from utils/crypto.ts: first 12 bytes of
HMAC-SHA256(chunkKey, fileId bytes followed by the single chunk-index
byte).  Buffer.from([chunkIndex]) truncates the index to one byte. -/
def deriveChunkIV {κ : Type} (P : CryptoPrimitives κ) (chunkKey : κ)
    (fileId : Bytes) (chunkIndex : Nat) : Bytes :=
  (P.hmac chunkKey (fileId ++ [chunkIndex % 256])).take IV_LENGTH

/-- The AAD built by encryptChunk: the UTF-8 bytes of
JSON.stringify(\x7bfileId, chunkIndex, version: 1\x7d) for a file id whose
bytes need no JSON escaping. -/
def chunkAAD (fileId : Bytes) (chunkIndex : Nat) : Bytes :=
  -- "\x7b\"fileId\":\""
  [123, 34, 102, 105, 108, 101, 73, 100, 34, 58, 34] ++ fileId ++
  -- "\",\"chunkIndex\":"
  [34, 44, 34, 99, 104, 117, 110, 107, 73, 110, 100, 101, 120, 34, 58] ++
  decAscii chunkIndex ++
  -- ",\"version\":1\x7d"
  [44, 34, 118, 101, 114, 115, 105, 111, 110, 34, 58, 49, 125]

/-- Result record of encryptChunk (hex renderings elided: iv, authTag,
aad and the hashes are carried as byte lists). -/
structure ChunkEncryptionResult where
  ciphertext : Bytes
  iv : Bytes
  authTag : Bytes
  ciphertextHash : Bytes
  aad : Bytes
  sizeBytes : Nat
  deriving DecidableEq, Repr, Inhabited

/-- encryptChunk from utils/crypto.ts: unwrap the DEK, derive the chunk
key and deterministic IV, build the AAD, AEAD-encrypt, hash the
ciphertext. -/
def encryptChunk {κ : Type} (P : CryptoPrimitives κ) (kek : κ) (plaintext : Bytes)
    (wrappedDEK : Bytes) (fileId : Bytes) (chunkIndex : Nat) :
    Except CryptoErr ChunkEncryptionResult :=
  match unwrapDEK P kek wrappedDEK with
  | .error e => .error e
  | .ok dek =>
    match deriveChunkKey P dek fileId chunkIndex with
    | .error e => .error e
    | .ok chunkKey =>
      let iv := deriveChunkIV P chunkKey fileId chunkIndex
      let aadBuffer := chunkAAD fileId chunkIndex
      let e := P.aeadEnc chunkKey iv aadBuffer plaintext
      .ok {
        ciphertext := e.1
        iv := iv
        authTag := e.2
        ciphertextHash := P.sha256 e.1
        aad := aadBuffer
        sizeBytes := e.1.length
      }

/-- Input record of decryptChunk. -/
structure ChunkDecryptionInput where
  ciphertext : Bytes
  iv : Bytes
  authTag : Bytes
  ciphertextHash : Bytes
  aad : Bytes
  wrappedDEK : Bytes
  fileId : Bytes
  chunkIndex : Nat
  deriving DecidableEq, Repr

/-- decryptChunk from utils/crypto.ts: validate IV and tag lengths,
verify the ciphertext hash, unwrap the DEK, derive the chunk key, then
AEAD-decrypt with the supplied AAD. -/
def decryptChunk {κ : Type} (P : CryptoPrimitives κ) (kek : κ)
    (input : ChunkDecryptionInput) : Except CryptoErr Bytes :=
  if input.iv.length ≠ IV_LENGTH then
    .error .invalidIVLength
  else if input.authTag.length ≠ AUTH_TAG_LENGTH then
    .error .invalidTagLength
  else if P.sha256 input.ciphertext ≠ input.ciphertextHash then
    .error .hashMismatch
  else
    match unwrapDEK P kek input.wrappedDEK with
    | .error e => .error e
    | .ok dek =>
      match deriveChunkKey P dek input.fileId input.chunkIndex with
      | .error e => .error e
      | .ok chunkKey =>
        match P.aeadDec chunkKey input.iv input.aad input.ciphertext input.authTag with
        | some plaintext => .ok plaintext
        | none => .error .decryptFailed

/-- generateChecksum from utils/crypto.ts. -/
def generateChecksum {κ : Type} (P : CryptoPrimitives κ) (data : Bytes) : Bytes :=
  P.sha256 data

/-! ### Chunking service (modules/files/chunking.service.ts)

The service in use splits into fixed-size pieces; the chunk size comes
from config.fileProcessing.chunkSizeBytes = CHUNK_SIZE_MB * 1024 * 1024.
The while loop advances the offset by min(chunkSize, remaining) at every
step; with a positive chunk size each iteration consumes at least one
byte, so the buffer length bounds the iteration count (the fuel below). -/

def splitGo (chunkSize : Nat) : Nat → Bytes → List Bytes
  | 0, _ => []
  | _, [] => []
  | fuel + 1, buf => buf.take chunkSize :: splitGo chunkSize fuel (buf.drop chunkSize)

/-- splitIntoChunks from chunking.service.ts. -/
def splitIntoChunks (chunkSize : Nat) (fileBuffer : Bytes) : List Bytes :=
  splitGo chunkSize fileBuffer.length fileBuffer

/-- One encrypted chunk record pushed by processFile. -/
structure EncryptedChunkRec where
  sequenceNum : Nat
  sizeBytes : Nat
  checksum : Bytes
  encryptedData : Bytes
  iv : Bytes
  authTag : Bytes
  aad : Bytes
  deriving DecidableEq, Repr

structure FileMetadataRec where
  sizeBytes : Nat
  checksum : Bytes
  encryptionKey : Bytes
  deriving DecidableEq, Repr

structure FileProcessingResult where
  fileMetadata : FileMetadataRec
  chunks : List EncryptedChunkRec
  deriving DecidableEq, Repr

/-- The encryption loop of processFile: encrypt each piece at its index. -/
def encryptPieces {κ : Type} (P : CryptoPrimitives κ) (kek : κ)
    (wrappedDEK fileId : Bytes) :
    Nat → List Bytes → Except CryptoErr (List EncryptedChunkRec)
  | _, [] => .ok []
  | i, piece :: rest =>
    match encryptChunk P kek piece wrappedDEK fileId i with
    | .error e => .error e
    | .ok encrypted =>
      match encryptPieces P kek wrappedDEK fileId (i + 1) rest with
      | .error e => .error e
      | .ok tail =>
        .ok ({
          sequenceNum := i
          sizeBytes := encrypted.sizeBytes
          checksum := encrypted.ciphertextHash
          encryptedData := encrypted.ciphertext
          iv := encrypted.iv
          authTag := encrypted.authTag
          aad := encrypted.aad
        } :: tail)

/-- processFile from chunking.service.ts: checksum the original buffer,
issue a wrapped DEK (the random DEK and nonce are explicit inputs),
split into chunks and encrypt each one. -/
def processFile {κ : Type} (P : CryptoPrimitives κ) (kek : κ)
    (dek nonce : Bytes) (chunkSize : Nat) (fileBuffer : Bytes) (fileId : Bytes) :
    Except CryptoErr FileProcessingResult :=
  let originalChecksum := generateChecksum P fileBuffer
  let wrappedDEK := generateWrappedDEK P kek dek nonce
  let chunks := splitIntoChunks chunkSize fileBuffer
  match encryptPieces P kek wrappedDEK fileId 0 chunks with
  | .error e => .error e
  | .ok encryptedChunks =>
    .ok {
      fileMetadata := {
        sizeBytes := fileBuffer.length
        checksum := originalChecksum
        encryptionKey := wrappedDEK
      }
      chunks := encryptedChunks
    }

/-! ### Chunk retrieval service (modules/chunks/retrieval.service.ts)

retrieveFile fetches every chunk from some live holder over the socket
layer; the fetched results are an explicit input here.  The embedding
covers the pure tail of the pipeline: ordering by sequence number,
per-chunk decryption, concatenation and the whole-file checksum gate. -/

structure RetrievedChunkRec where
  chunkId : Nat
  sequenceNum : Nat
  encryptedData : Bytes
  iv : Bytes
  authTag : Bytes
  aad : Bytes
  checksum : Bytes
  deriving DecidableEq, Repr

/-- The stored File row fields read by retrieveFile. -/
structure RetrievalFileRec where
  id : Bytes                -- file id as UTF-8 bytes
  encryptionKey : Bytes     -- wrapped DEK
  checksum : Bytes          -- plaintext hash recorded at upload
  deriving DecidableEq, Repr

/-- Insertion sort ascending by sequence number, modelling
retrievedChunks.sort((a, b) => a.sequenceNum - b.sequenceNum). -/
def insertBySeq (x : RetrievedChunkRec) :
    List RetrievedChunkRec → List RetrievedChunkRec
  | [] => [x]
  | y :: ys =>
    if x.sequenceNum ≤ y.sequenceNum then x :: y :: ys
    else y :: insertBySeq x ys

def sortBySeq (l : List RetrievedChunkRec) : List RetrievedChunkRec :=
  l.foldr insertBySeq []

/-- The decryption loop of retrieveFile. -/
def decryptAll {κ : Type} (P : CryptoPrimitives κ) (kek : κ)
    (file : RetrievalFileRec) :
    List RetrievedChunkRec → Except CryptoErr (List Bytes)
  | [] => .ok []
  | chunk :: rest =>
    match decryptChunk P kek {
      ciphertext := chunk.encryptedData
      iv := chunk.iv
      authTag := chunk.authTag
      ciphertextHash := chunk.checksum
      aad := chunk.aad
      wrappedDEK := file.encryptionKey
      fileId := file.id
      chunkIndex := chunk.sequenceNum
    } with
    | .error e => .error e
    | .ok decrypted =>
      match decryptAll P kek file rest with
      | .error e => .error e
      | .ok tail => .ok (decrypted :: tail)

/-- Errors surfaced by retrieveFile beyond crypto failures. -/
inductive RetrievalErr
  | cryptoErr (e : CryptoErr)
  | checksumMismatch        -- "File checksum mismatch! File may be corrupted."
  deriving DecidableEq, Repr

/-- retrieveFile from retrieval.service.ts, given the chunks fetched from
devices: sort by sequence number, decrypt each chunk, concatenate, verify
the original checksum; only a buffer passing the checksum gate is
returned. -/
def retrieveFile {κ : Type} (P : CryptoPrimitives κ) (kek : κ)
    (file : RetrievalFileRec) (retrieved : List RetrievedChunkRec) :
    Except RetrievalErr Bytes :=
  let sorted := sortBySeq retrieved
  match decryptAll P kek file sorted with
  | .error e => .error (.cryptoErr e)
  | .ok decryptedChunks =>
    let reassembledFile := decryptedChunks.flatten
    let actualChecksum := generateChecksum P reassembledFile
    if actualChecksum ≠ file.checksum then
      .error .checksumMismatch
    else
      .ok reassembledFile

/-! ### A concrete instance of the primitives

Used to evaluate the pipeline on explicit inputs.  A byte list is packed
into one natural through the classic run-length bijection, and the tag of
the instance AEAD records the packings of key, iv, aad and plaintext, so
the ideal binding laws hold literally. -/

/-- Injective packing of a byte list into a natural:
nil goes to 0 and cons x l goes to 2 ^ x * (2 * pack l + 1). -/
def encB : Bytes → Nat
  | [] => 0
  | x :: l => 2 ^ x * (2 * encB l + 1)

theorem encB_pos (x : Nat) (l : Bytes) : 0 < encB (x :: l) := by
  have h1 : 0 < 2 ^ x := Nat.pos_pow_of_pos x (by omega)
  have h2 : 0 < 2 * encB l + 1 := by omega
  show 0 < 2 ^ x * (2 * encB l + 1)
  exact Nat.mul_pos h1 h2

theorem two_pow_mul_odd_inj :
    ∀ a m b n : Nat, 2 ^ a * (2 * m + 1) = 2 ^ b * (2 * n + 1) →
      a = b ∧ m = n := by
  intro a
  induction a with
  | zero =>
    intro m b n h
    rw [pow_zero, one_mul] at h
    cases b with
    | zero => rw [pow_zero, one_mul] at h; omega
    | succ b' =>
      exfalso
      rw [pow_succ] at h
      have hdvd : 2 ∣ 2 ^ b' * 2 * (2 * n + 1) := ⟨2 ^ b' * (2 * n + 1), by ring⟩
      omega
  | succ a' ih =>
    intro m b n h
    cases b with
    | zero =>
      exfalso
      rw [pow_zero, one_mul, pow_succ] at h
      have hdvd : 2 ∣ 2 ^ a' * 2 * (2 * m + 1) := ⟨2 ^ a' * (2 * m + 1), by ring⟩
      omega
    | succ b' =>
      rw [pow_succ, pow_succ] at h
      have h2 : 2 ^ a' * (2 * m + 1) = 2 ^ b' * (2 * n + 1) := by
        have hl : 2 ^ a' * 2 * (2 * m + 1) = 2 * (2 ^ a' * (2 * m + 1)) := by ring
        have hr : 2 ^ b' * 2 * (2 * n + 1) = 2 * (2 ^ b' * (2 * n + 1)) := by ring
        rw [hl, hr] at h
        exact Nat.eq_of_mul_eq_mul_left (by omega) h
      have := ih m b' n h2
      omega

theorem encB_injective : Function.Injective encB := by
  intro l
  induction l with
  | nil =>
    intro l2 h
    cases l2 with
    | nil => rfl
    | cons y t =>
      exfalso
      have hp := encB_pos y t
      have h0 : (0 : Nat) = encB (y :: t) := h
      omega
  | cons x t ih =>
    intro l2 h
    cases l2 with
    | nil =>
      exfalso
      have hp := encB_pos x t
      have h0 : encB (x :: t) = (0 : Nat) := h
      omega
    | cons y t2 =>
      have h2 : 2 ^ x * (2 * encB t + 1) = 2 ^ y * (2 * encB t2 + 1) := h
      obtain ⟨hx, ht⟩ := two_pow_mul_odd_inj x (encB t) y (encB t2) h2
      rw [hx, ih ht]

/-- The key type of the concrete primitives: packings of the HKDF inputs
ikm, salt and info. -/
abbrev CKey := Nat × Nat × Nat

/-- The tag of the instance AEAD: the key components and the packings of
iv, aad and plaintext, padded to the 16-byte tag length. -/
def instTag (k : CKey) (iv aad pt : Bytes) : Bytes :=
  [k.1, k.2.1, k.2.2, encB iv, encB aad, encB pt] ++ List.replicate 10 0

theorem instTag_binding (k : CKey) (iv aad pt : Bytes) (k' : CKey)
    (iv' aad' pt' : Bytes)
    (h : instTag k iv aad pt = instTag k' iv' aad' pt') :
    k = k' ∧ iv = iv' ∧ aad = aad' ∧ pt = pt' := by
  obtain ⟨a, b, c⟩ := k
  obtain ⟨a', b', c'⟩ := k'
  simp [instTag] at h
  obtain ⟨h1, h2, h3, h4, h5, h6⟩ := h
  exact ⟨by rw [h1, h2, h3], encB_injective h4,
    encB_injective h5, encB_injective h6⟩

/-- The concrete primitives: ciphertext is the plaintext itself (the
confidentiality side is not the subject of any claim), the tag commits to
everything, decryption recomputes and compares the tag. -/
def concretePrims : CryptoPrimitives CKey where
  aeadEnc k iv aad pt := (pt, instTag k iv aad pt)
  aeadDec k iv aad ct tag := if instTag k iv aad ct = tag then some ct else none
  sha256 _ := []
  hkdf ikm salt info := (encB ikm, encB salt, encB info)
  hmac _ _ := List.replicate 32 0
  enc_ct_length := by intro k iv aad pt; rfl
  enc_tag_length := by intro k iv aad pt; rfl
  dec_enc := by intro k iv aad pt; simp
  dec_sound := by
    intro k iv aad ct tag pt h
    by_cases hc : instTag k iv aad ct = tag
    · simp [hc] at h
      subst h
      simp [hc]
    · simp [hc] at h
  tag_binding := by
    intro k iv aad pt k' iv' aad' pt' h
    exact instTag_binding k iv aad pt k' iv' aad' pt' h
  ct_determines_pt := by intro k iv aad pt pt' h; exact h
  hkdf_injective := by
    intro ikm salt info ikm' salt' info' h
    rw [Prod.ext_iff, Prod.ext_iff] at h
    exact ⟨encB_injective h.1, encB_injective h.2.1, encB_injective h.2.2⟩
  hmac_length := by intro k m; rfl

/-! ### Properties of the crypto pipeline -/

/-- The decryption input a retriever assembles from the output of
encryptChunk together with the stored wrapped DEK, file id and chunk
index. -/
def decryptionInputOf (res : ChunkEncryptionResult)
    (wrappedDEK fileId : Bytes) (chunkIndex : Nat) : ChunkDecryptionInput where
  ciphertext := res.ciphertext
  iv := res.iv
  authTag := res.authTag
  ciphertextHash := res.ciphertextHash
  aad := res.aad
  wrappedDEK := wrappedDEK
  fileId := fileId
  chunkIndex := chunkIndex

theorem except_error_of_not_ok {ε α : Type} (x : Except ε α)
    (h : ∀ a, x ≠ Except.ok a) : ∃ e, x = Except.error e := by
  cases x with
  | error e => exact ⟨e, rfl⟩
  | ok a => exact absurd rfl (h a)

/-- Successful encryptChunk: recover the unwrapped DEK and the equations
defining every output field. -/
theorem encryptChunk_ok_elim {κ : Type} {P : CryptoPrimitives κ} {kek : κ}
    {pt wdek fid : Bytes} {i : Nat} {res : ChunkEncryptionResult}
    (henc : encryptChunk P kek pt wdek fid i = .ok res) :
    ∃ dek, unwrapDEK P kek wdek = Except.ok dek ∧ dek.length = KEY_LENGTH ∧
      res.iv = deriveChunkIV P (P.hkdf dek fid (chunkKeyInfo i)) fid i ∧
      res.aad = chunkAAD fid i ∧
      (res.ciphertext, res.authTag) =
        P.aeadEnc (P.hkdf dek fid (chunkKeyInfo i)) res.iv res.aad pt ∧
      res.ciphertextHash = P.sha256 res.ciphertext := by
  unfold encryptChunk at henc
  cases hw : unwrapDEK P kek wdek with
  | error e => rw [hw] at henc; simp at henc
  | ok dek =>
    rw [hw] at henc
    unfold deriveChunkKey at henc
    by_cases hlen : dek.length = KEY_LENGTH
    · simp only [hlen] at henc
      simp at henc
      refine ⟨dek, rfl, hlen, ?_, ?_, ?_, ?_⟩ <;> rw [← henc]
    · simp only [if_neg (by simpa using hlen)] at henc
      simp [hlen] at henc

/-- Successful decryptChunk: recover the validation facts and the
successful AEAD decryption. -/
theorem decryptChunk_ok_elim {κ : Type} {P : CryptoPrimitives κ} {kek : κ}
    {input : ChunkDecryptionInput} {pt : Bytes}
    (hdec : decryptChunk P kek input = .ok pt) :
    input.iv.length = IV_LENGTH ∧ input.authTag.length = AUTH_TAG_LENGTH ∧
      P.sha256 input.ciphertext = input.ciphertextHash ∧
      ∃ dek, unwrapDEK P kek input.wrappedDEK = Except.ok dek ∧
        dek.length = KEY_LENGTH ∧
        P.aeadDec (P.hkdf dek input.fileId (chunkKeyInfo input.chunkIndex))
          input.iv input.aad input.ciphertext input.authTag = some pt := by
  unfold decryptChunk at hdec
  by_cases h1 : input.iv.length = IV_LENGTH
  · by_cases h2 : input.authTag.length = AUTH_TAG_LENGTH
    · by_cases h3 : P.sha256 input.ciphertext = input.ciphertextHash
      · simp only [h1, h2, h3, ne_eq, not_true_eq_false, if_false,
          not_false_eq_true, if_true] at hdec
        refine ⟨h1, h2, h3, ?_⟩
        cases hw : unwrapDEK P kek input.wrappedDEK with
        | error e => rw [hw] at hdec; simp at hdec
        | ok dek =>
          rw [hw] at hdec
          unfold deriveChunkKey at hdec
          by_cases hlen : dek.length = KEY_LENGTH
          · simp only [hlen] at hdec
            simp at hdec
            refine ⟨dek, rfl, hlen, ?_⟩
            cases hd : P.aeadDec (P.hkdf dek input.fileId
                (chunkKeyInfo input.chunkIndex)) input.iv input.aad
                input.ciphertext input.authTag with
            | none => rw [hd] at hdec; simp at hdec
            | some q => rw [hd] at hdec; simp at hdec; rw [hdec]
          · simp only [if_neg (by simpa using hlen)] at hdec
            simp [hlen] at hdec
      · simp [h1, h2, h3] at hdec
    · simp [h1, h2] at hdec
  · simp [h1] at hdec

theorem chunkKeyInfo_injective : Function.Injective chunkKeyInfo := by
  intro a b h
  unfold chunkKeyInfo at h
  exact decAscii_injective (List.append_cancel_left h)

/-- Decryption of an honestly encrypted chunk with matching parameters
recovers the plaintext. -/
theorem decryptChunk_encryptChunk {κ : Type} {P : CryptoPrimitives κ}
    {kek : κ} {pt wdek fid : Bytes} {i : Nat} {res : ChunkEncryptionResult}
    (henc : encryptChunk P kek pt wdek fid i = .ok res) :
    decryptChunk P kek (decryptionInputOf res wdek fid i) = .ok pt := by
  obtain ⟨dek, hw, hlen, hiv, haad, hct, hhash⟩ := encryptChunk_ok_elim henc
  have hctEq : res.ciphertext =
      (P.aeadEnc (P.hkdf dek fid (chunkKeyInfo i)) res.iv res.aad pt).1 :=
    congrArg Prod.fst hct
  have htagEq : res.authTag =
      (P.aeadEnc (P.hkdf dek fid (chunkKeyInfo i)) res.iv res.aad pt).2 :=
    congrArg Prod.snd hct
  have hivlen : res.iv.length = IV_LENGTH := by
    rw [hiv]
    unfold deriveChunkIV
    rw [List.length_take, P.hmac_length]
    decide
  have htaglen : res.authTag.length = AUTH_TAG_LENGTH := by
    rw [htagEq, P.enc_tag_length]
    decide
  have hdec := P.dec_enc (P.hkdf dek fid (chunkKeyInfo i)) res.iv res.aad pt
  rw [← hctEq, ← htagEq] at hdec
  unfold decryptChunk decryptionInputOf
  simp only [hivlen, htaglen, ← hhash, ne_eq, not_true_eq_false, if_false]
  rw [hw]
  unfold deriveChunkKey
  simp only [hlen, ne_eq, not_true_eq_false, if_false]
  rw [hdec]

/-- C1.  EncryptChunk followed by DecryptChunk with the same wrapped DEK,
file id and chunk index returns the original plaintext; altering any one
of the ciphertext, iv, auth tag, aad, file id or chunk index makes
DecryptChunk fail.  The primitives are the ideal AEAD model. -/
theorem encryptChunk_decryptChunk_roundtrip_and_tamper
    {κ : Type} (P : CryptoPrimitives κ) (kek : κ) (pt wdek fid : Bytes)
    (i : Nat) (res : ChunkEncryptionResult)
    (henc : encryptChunk P kek pt wdek fid i = .ok res) :
    decryptChunk P kek (decryptionInputOf res wdek fid i) = .ok pt
    ∧ (∀ ct', ct' ≠ res.ciphertext → ∃ e, decryptChunk P kek
        { decryptionInputOf res wdek fid i with ciphertext := ct' } = .error e)
    ∧ (∀ iv', iv' ≠ res.iv → ∃ e, decryptChunk P kek
        { decryptionInputOf res wdek fid i with iv := iv' } = .error e)
    ∧ (∀ tag', tag' ≠ res.authTag → ∃ e, decryptChunk P kek
        { decryptionInputOf res wdek fid i with authTag := tag' } = .error e)
    ∧ (∀ aad', aad' ≠ res.aad → ∃ e, decryptChunk P kek
        { decryptionInputOf res wdek fid i with aad := aad' } = .error e)
    ∧ (∀ fid', fid' ≠ fid → ∃ e, decryptChunk P kek
        (decryptionInputOf res wdek fid' i) = .error e)
    ∧ (∀ i', i' ≠ i → ∃ e, decryptChunk P kek
        (decryptionInputOf res wdek fid i') = .error e) := by
  obtain ⟨dek, hw, hlen, hiv, haad, hct, hhash⟩ := encryptChunk_ok_elim henc
  have hencEq : P.aeadEnc (P.hkdf dek fid (chunkKeyInfo i)) res.iv res.aad pt =
      (res.ciphertext, res.authTag) := hct.symm
  refine ⟨decryptChunk_encryptChunk henc, ?_, ?_, ?_, ?_, ?_, ?_⟩
  · -- altered ciphertext
    intro ct' hne
    apply except_error_of_not_ok
    intro pt' hok
    obtain ⟨-, -, -, dek', hw', -, hdecOk⟩ := decryptChunk_ok_elim hok
    simp only [decryptionInputOf] at hw' hdecOk
    rw [hw] at hw'
    injection hw' with hdek
    subst hdek
    have hsound := P.dec_sound _ _ _ _ _ _ hdecOk
    have htag : (P.aeadEnc (P.hkdf dek fid (chunkKeyInfo i)) res.iv res.aad pt').2 =
        (P.aeadEnc (P.hkdf dek fid (chunkKeyInfo i)) res.iv res.aad pt).2 := by
      rw [hsound, hencEq]
    obtain ⟨-, -, -, hpt⟩ := P.tag_binding _ _ _ _ _ _ _ _ htag
    subst hpt
    apply hne
    have := congrArg Prod.fst (hsound.symm.trans hencEq)
    simpa using this
  · -- altered iv
    intro iv' hne
    apply except_error_of_not_ok
    intro pt' hok
    obtain ⟨-, -, -, dek', hw', -, hdecOk⟩ := decryptChunk_ok_elim hok
    simp only [decryptionInputOf] at hw' hdecOk
    rw [hw] at hw'
    injection hw' with hdek
    subst hdek
    have hsound := P.dec_sound _ _ _ _ _ _ hdecOk
    have htag : (P.aeadEnc (P.hkdf dek fid (chunkKeyInfo i)) iv' res.aad pt').2 =
        (P.aeadEnc (P.hkdf dek fid (chunkKeyInfo i)) res.iv res.aad pt).2 := by
      rw [hsound, hencEq]
    obtain ⟨-, hiv', -, -⟩ := P.tag_binding _ _ _ _ _ _ _ _ htag
    exact hne hiv'
  · -- altered auth tag
    intro tag' hne
    apply except_error_of_not_ok
    intro pt' hok
    obtain ⟨-, -, -, dek', hw', -, hdecOk⟩ := decryptChunk_ok_elim hok
    simp only [decryptionInputOf] at hw' hdecOk
    rw [hw] at hw'
    injection hw' with hdek
    subst hdek
    have hsound := P.dec_sound _ _ _ _ _ _ hdecOk
    have hctc : (P.aeadEnc (P.hkdf dek fid (chunkKeyInfo i)) res.iv res.aad pt').1 =
        (P.aeadEnc (P.hkdf dek fid (chunkKeyInfo i)) res.iv res.aad pt).1 := by
      rw [hsound, hencEq]
    have hpt := P.ct_determines_pt _ _ _ _ _ hctc
    subst hpt
    apply hne
    have := congrArg Prod.snd (hsound.symm.trans hencEq)
    simpa using this
  · -- altered aad
    intro aad' hne
    apply except_error_of_not_ok
    intro pt' hok
    obtain ⟨-, -, -, dek', hw', -, hdecOk⟩ := decryptChunk_ok_elim hok
    simp only [decryptionInputOf] at hw' hdecOk
    rw [hw] at hw'
    injection hw' with hdek
    subst hdek
    have hsound := P.dec_sound _ _ _ _ _ _ hdecOk
    have htag : (P.aeadEnc (P.hkdf dek fid (chunkKeyInfo i)) res.iv aad' pt').2 =
        (P.aeadEnc (P.hkdf dek fid (chunkKeyInfo i)) res.iv res.aad pt).2 := by
      rw [hsound, hencEq]
    obtain ⟨-, -, haad', -⟩ := P.tag_binding _ _ _ _ _ _ _ _ htag
    exact hne haad'
  · -- altered file id
    intro fid' hne
    apply except_error_of_not_ok
    intro pt' hok
    obtain ⟨-, -, -, dek', hw', -, hdecOk⟩ := decryptChunk_ok_elim hok
    simp only [decryptionInputOf] at hw' hdecOk
    rw [hw] at hw'
    injection hw' with hdek
    subst hdek
    have hsound := P.dec_sound _ _ _ _ _ _ hdecOk
    have htag : (P.aeadEnc (P.hkdf dek fid' (chunkKeyInfo i)) res.iv res.aad pt').2 =
        (P.aeadEnc (P.hkdf dek fid (chunkKeyInfo i)) res.iv res.aad pt).2 := by
      rw [hsound, hencEq]
    obtain ⟨hk, -, -, -⟩ := P.tag_binding _ _ _ _ _ _ _ _ htag
    obtain ⟨-, hsalt, -⟩ := P.hkdf_injective _ _ _ _ _ _ hk
    exact hne hsalt
  · -- altered chunk index
    intro i' hne
    apply except_error_of_not_ok
    intro pt' hok
    obtain ⟨-, -, -, dek', hw', -, hdecOk⟩ := decryptChunk_ok_elim hok
    simp only [decryptionInputOf] at hw' hdecOk
    rw [hw] at hw'
    injection hw' with hdek
    subst hdek
    have hsound := P.dec_sound _ _ _ _ _ _ hdecOk
    have htag : (P.aeadEnc (P.hkdf dek fid (chunkKeyInfo i')) res.iv res.aad pt').2 =
        (P.aeadEnc (P.hkdf dek fid (chunkKeyInfo i)) res.iv res.aad pt).2 := by
      rw [hsound, hencEq]
    obtain ⟨hk, -, -, -⟩ := P.tag_binding _ _ _ _ _ _ _ _ htag
    obtain ⟨-, -, hinfo⟩ := P.hkdf_injective _ _ _ _ _ _ hk
    exact hne (chunkKeyInfo_injective hinfo)

/-- Concrete DEK and nonce used to evaluate the pipeline. -/
def dekEx : Bytes := List.replicate 32 0
def nonceEx : Bytes := List.replicate 12 0
def kekEx : CKey := (0, 0, 0)
def wdekEx : Bytes := generateWrappedDEK concretePrims kekEx dekEx nonceEx

/-- The encryption result the concrete primitives produce on the sample
chunk. -/
def encResEx : ChunkEncryptionResult :=
  (encryptChunk concretePrims kekEx [5] wdekEx [1] 0).toOption.getD default

/-- Witness for the round-trip and tamper theorem: a concrete evaluation
of encryptChunk followed by decryptChunk on the sample chunk. -/
theorem encryptChunk_decryptChunk_roundtrip_witness :
    encryptChunk concretePrims kekEx [5] wdekEx [1] 0 = Except.ok encResEx ∧
      decryptChunk concretePrims kekEx
        (decryptionInputOf encResEx wdekEx [1] 0) = Except.ok [5] := by
  have henc : encryptChunk concretePrims kekEx [5] wdekEx [1] 0 = Except.ok encResEx := by
    rfl
  exact ⟨henc, (encryptChunk_decryptChunk_roundtrip_and_tamper concretePrims
    kekEx [5] wdekEx [1] 0 encResEx henc).1⟩

/-! ### Unwrapping the generated wrapped DEK -/

theorem splitGo_nil (cs fuel : Nat) : splitGo cs fuel [] = [] := by
  cases fuel <;> rfl

theorem splitGo_step (cs fuel : Nat) (buf : Bytes) (hbuf : buf ≠ []) :
    splitGo cs (fuel + 1) buf = buf.take cs :: splitGo cs fuel (buf.drop cs) := by
  cases buf with
  | nil => exact absurd rfl hbuf
  | cons x t => rfl

theorem splitGo_of_le (cs fuel : Nat) (buf : Bytes) (hbuf : buf ≠ [])
    (hle : buf.length ≤ cs) (hfuel : 0 < fuel) : splitGo cs fuel buf = [buf] := by
  cases fuel with
  | zero => omega
  | succ n =>
    cases buf with
    | nil => exact absurd rfl hbuf
    | cons x t =>
      show (x :: t).take cs :: splitGo cs n ((x :: t).drop cs) = [x :: t]
      rw [List.take_of_length_le hle, List.drop_eq_nil_of_le hle, splitGo_nil]

theorem unwrapDEK_generateWrappedDEK {κ : Type} (P : CryptoPrimitives κ)
    (kek : κ) (dek nonce : Bytes) (hdek : dek.length = KEY_LENGTH)
    (hnonce : nonce.length = IV_LENGTH) :
    unwrapDEK P kek (generateWrappedDEK P kek dek nonce) = Except.ok dek := by
  unfold generateWrappedDEK unwrapDEK
  have hct : (P.aeadEnc kek nonce [] dek).1.length = KEY_LENGTH := by
    rw [P.enc_ct_length, hdek]
  have htag : (P.aeadEnc kek nonce [] dek).2.length = AUTH_TAG_LENGTH :=
    P.enc_tag_length kek nonce [] dek
  have hlen : (nonce ++ (P.aeadEnc kek nonce [] dek).2 ++
      (P.aeadEnc kek nonce [] dek).1).length =
      IV_LENGTH + AUTH_TAG_LENGTH + KEY_LENGTH := by
    simp [hnonce, htag, hct]
    decide
  simp only [hlen, ne_eq, not_true_eq_false, if_false]
  have htake : (nonce ++ (P.aeadEnc kek nonce [] dek).2 ++
      (P.aeadEnc kek nonce [] dek).1).take IV_LENGTH = nonce := by
    rw [List.append_assoc, ← hnonce, List.take_left]
  have hdrop1 : (nonce ++ (P.aeadEnc kek nonce [] dek).2 ++
      (P.aeadEnc kek nonce [] dek).1).drop IV_LENGTH =
      (P.aeadEnc kek nonce [] dek).2 ++ (P.aeadEnc kek nonce [] dek).1 := by
    rw [List.append_assoc, ← hnonce, List.drop_left]
  have htake2 : ((P.aeadEnc kek nonce [] dek).2 ++
      (P.aeadEnc kek nonce [] dek).1).take AUTH_TAG_LENGTH =
      (P.aeadEnc kek nonce [] dek).2 := by
    rw [← htag, List.take_left]
  have hdrop2 : (nonce ++ (P.aeadEnc kek nonce [] dek).2 ++
      (P.aeadEnc kek nonce [] dek).1).drop (IV_LENGTH + AUTH_TAG_LENGTH) =
      (P.aeadEnc kek nonce [] dek).1 := by
    have : (nonce ++ (P.aeadEnc kek nonce [] dek).2).length =
        IV_LENGTH + AUTH_TAG_LENGTH := by
      simp [hnonce, htag]
    rw [← this, List.drop_left]
  rw [htake, hdrop1, htake2, hdrop2]
  have hre : P.aeadDec kek nonce [] (P.aeadEnc kek nonce [] dek).1
      (P.aeadEnc kek nonce [] dek).2 = some dek := P.dec_enc kek nonce [] dek
  rw [hre]

/-- encryptPieces succeeds on every piece list once the wrapped DEK
unwraps to a 32-byte DEK, and the recorded chunk sizes are the plaintext
piece lengths (AES-GCM ciphertext has the plaintext length). -/
theorem encryptPieces_ok {κ : Type} (P : CryptoPrimitives κ) (kek : κ)
    (wdek fid dek : Bytes)
    (hw : unwrapDEK P kek wdek = Except.ok dek)
    (hdek : dek.length = KEY_LENGTH) :
    ∀ (pieces : List Bytes) (i : Nat),
      ∃ l, encryptPieces P kek wdek fid i pieces = Except.ok l ∧
        l.map (·.sizeBytes) = pieces.map List.length := by
  intro pieces
  induction pieces with
  | nil => intro i; exact ⟨[], rfl, rfl⟩
  | cons piece rest ih =>
    intro i
    obtain ⟨tail, htail, hsizes⟩ := ih (i + 1)
    obtain ⟨r, hr, hrsize⟩ : ∃ r, encryptChunk P kek piece wdek fid i = Except.ok r ∧
        r.sizeBytes = piece.length := by
      unfold encryptChunk
      rw [hw]
      unfold deriveChunkKey
      simp only [hdek, ne_eq, not_true_eq_false, if_false]
      exact ⟨_, rfl, P.enc_ct_length _ _ _ _⟩
    have hmain : encryptPieces P kek wdek fid i (piece :: rest) = Except.ok ({
        sequenceNum := i
        sizeBytes := r.sizeBytes
        checksum := r.ciphertextHash
        encryptedData := r.ciphertext
        iv := r.iv
        authTag := r.authTag
        aad := r.aad } :: tail) := by
      unfold encryptPieces
      rw [hr, htail]
    exact ⟨_, hmain, by simp [hrsize, hsizes]⟩

/-- C3.  With the configured chunk size 1 GiB (CHUNK_SIZE_MB = 1024),
processFile on a 1 GiB buffer yields exactly one chunk of (plaintext and
ciphertext) size 1 GiB, and on a 1 GiB + 1 byte buffer exactly two
chunks, the last of size 1 byte. -/
theorem processFile_oneGiB_boundary {κ : Type} (P : CryptoPrimitives κ)
    (kek : κ) (dek nonce fid : Bytes) (buf1 buf2 : Bytes) (cs : Nat)
    (hcs : cs = 1024 * 1024 * 1024)
    (hdek : dek.length = KEY_LENGTH) (hnonce : nonce.length = IV_LENGTH)
    (h1 : buf1.length = 1024 * 1024 * 1024)
    (h2 : buf2.length = 1024 * 1024 * 1024 + 1) :
    (splitIntoChunks cs buf1 = [buf1] ∧
      ∃ r, processFile P kek dek nonce cs buf1 fid = Except.ok r ∧
        r.chunks.map (·.sizeBytes) = [1024 * 1024 * 1024]) ∧
    (splitIntoChunks cs buf2 = [buf2.take cs, buf2.drop cs] ∧
      (buf2.drop cs).length = 1 ∧
      ∃ r, processFile P kek dek nonce cs buf2 fid = Except.ok r ∧
        r.chunks.map (·.sizeBytes) = [1024 * 1024 * 1024, 1]) := by
  subst hcs
  have hw := unwrapDEK_generateWrappedDEK P kek dek nonce hdek hnonce
  have hsplit1 : splitIntoChunks (1024 * 1024 * 1024) buf1 = [buf1] := by
    unfold splitIntoChunks
    apply splitGo_of_le
    · intro hnil; rw [hnil] at h1; simp at h1
    · omega
    · omega
  have hdroplen : (buf2.drop (1024 * 1024 * 1024)).length = 1 := by
    rw [List.length_drop, h2]
  have hne2 : buf2 ≠ [] := by
    intro hnil
    rw [hnil] at h2
    simp at h2
  have hsplit2 : splitIntoChunks (1024 * 1024 * 1024) buf2 =
      [buf2.take (1024 * 1024 * 1024), buf2.drop (1024 * 1024 * 1024)] := by
    unfold splitIntoChunks
    rw [h2, splitGo_step _ _ _ hne2, splitGo_of_le]
    · intro hnil
      rw [hnil] at hdroplen
      simp at hdroplen
    · omega
    · omega
  constructor
  · refine ⟨hsplit1, ?_⟩
    obtain ⟨l, hl, hsizes⟩ := encryptPieces_ok P kek
      (generateWrappedDEK P kek dek nonce) fid dek hw hdek
      (splitIntoChunks (1024 * 1024 * 1024) buf1) 0
    refine ⟨⟨⟨buf1.length, generateChecksum P buf1,
      generateWrappedDEK P kek dek nonce⟩, l⟩, ?_, ?_⟩
    · simp only [processFile]
      rw [hl]
    · show l.map (·.sizeBytes) = _
      rw [hsizes, hsplit1]
      simp [h1]
  · refine ⟨hsplit2, hdroplen, ?_⟩
    obtain ⟨l, hl, hsizes⟩ := encryptPieces_ok P kek
      (generateWrappedDEK P kek dek nonce) fid dek hw hdek
      (splitIntoChunks (1024 * 1024 * 1024) buf2) 0
    refine ⟨⟨⟨buf2.length, generateChecksum P buf2,
      generateWrappedDEK P kek dek nonce⟩, l⟩, ?_, ?_⟩
    · simp only [processFile]
      rw [hl]
    · show l.map (·.sizeBytes) = _
      rw [hsizes, hsplit2]
      have htakelen : (buf2.take (1024 * 1024 * 1024)).length = 1024 * 1024 * 1024 := by
        rw [List.length_take]
        omega
      simp [htakelen, hdroplen]

/-- Witness for the chunk-size boundary theorem at concrete buffers. -/
theorem processFile_oneGiB_boundary_witness :
    ∃ r, processFile concretePrims kekEx dekEx nonceEx (1024 * 1024 * 1024)
        (List.replicate (1024 * 1024 * 1024) 0) [1] = Except.ok r ∧
      r.chunks.map (·.sizeBytes) = [1024 * 1024 * 1024] := by
  have h := processFile_oneGiB_boundary concretePrims kekEx dekEx nonceEx [1]
    (List.replicate (1024 * 1024 * 1024) 0)
    (List.replicate (1024 * 1024 * 1024 + 1) 0)
    (1024 * 1024 * 1024) rfl (by decide)
    (by decide) (by rw [List.length_replicate]) (by rw [List.length_replicate])
  exact h.1.2

/-- C4.  retrieveFile returns a buffer only when its checksum matches the
stored plaintext hash of the file: every buffer it returns satisfies
SHA256(result) = file.checksum. -/
theorem retrieveFile_checksum_integrity {κ : Type} (P : CryptoPrimitives κ)
    (kek : κ) (file : RetrievalFileRec) (retrieved : List RetrievedChunkRec)
    (buf : Bytes) (h : retrieveFile P kek file retrieved = Except.ok buf) :
    generateChecksum P buf = file.checksum := by
  simp only [retrieveFile] at h
  cases hd : decryptAll P kek file (sortBySeq retrieved) with
  | error e => rw [hd] at h; simp at h
  | ok dcs =>
    rw [hd] at h
    by_cases hc : generateChecksum P dcs.flatten = file.checksum
    · simp only [hc, ne_eq, not_true_eq_false, if_false] at h
      simp at h
      rw [← h, hc]
    · simp [hc] at h

/-- The stored file row and the fetched chunk used to evaluate
retrieveFile. -/
def fileEx : RetrievalFileRec where
  id := [1]
  encryptionKey := wdekEx
  checksum := []

def retrievedEx : RetrievedChunkRec where
  chunkId := 7
  sequenceNum := 0
  encryptedData := encResEx.ciphertext
  iv := encResEx.iv
  authTag := encResEx.authTag
  aad := encResEx.aad
  checksum := encResEx.ciphertextHash

/-- Witness for the retrieval integrity theorem: a concrete retrieval of
one fetched chunk that passes the checksum gate. -/
theorem retrieveFile_checksum_integrity_witness :
    retrieveFile concretePrims kekEx fileEx [retrievedEx] = Except.ok [5] ∧
      generateChecksum concretePrims [5] = fileEx.checksum := by
  have h : retrieveFile concretePrims kekEx fileEx [retrievedEx] = Except.ok [5] := by
    rfl
  exact ⟨h, retrieveFile_checksum_integrity concretePrims kekEx fileEx
    [retrievedEx] [5] h⟩

/-! ### Chunk distribution service (modules/chunks/distribution.service.ts)

sendChunkToDevice emits the chunk:assign socket event; the payload is the
object literal built in the source from the chunk id and the metadata
record.  The payload is modelled as the ordered list of its keys paired
with their values. -/

/-- A JSON-ish payload value: string-typed fields carry their text,
numeric fields their number. -/
inductive PayloadVal
  | str (s : String)
  | num (n : Nat)
  deriving DecidableEq, Repr

/-- The chunk row fields loaded by distributeChunk and passed to
sendChunkToDevice as metadata. -/
structure DistChunkRec where
  id : String
  fileId : String
  sequenceNum : Nat
  sizeBytes : Nat
  checksum : String
  iv : String
  authTag : String
  aad : String
  deriving DecidableEq, Repr

/-- The chunk:assign payload emitted by sendChunkToDevice:
socket.emit with the chunkId and the spread metadata fields, in source
order.  The source comment states that for the MVP only metadata is sent
and the encrypted data is not included. -/
def chunkAssignPayload (chunk : DistChunkRec) : List (String × PayloadVal) :=
  [("chunkId", .str chunk.id),
   ("fileId", .str chunk.fileId),
   ("sequenceNum", .num chunk.sequenceNum),
   ("sizeBytes", .num chunk.sizeBytes),
   ("checksum", .str chunk.checksum),
   ("iv", .str chunk.iv),
   ("authTag", .str chunk.authTag),
   ("aad", .str chunk.aad)]

/-- A sample chunk row. -/
def distChunkEx : DistChunkRec where
  id := "c1"
  fileId := "f1"
  sequenceNum := 0
  sizeBytes := 5
  checksum := "h"
  iv := "iv"
  authTag := "t"
  aad := "a"

/-- C2 counterexample: the chunk:assign payload for a concrete chunk
carries no ciphertext field (neither a base64 ciphertext nor an
encrypted-data field); only the eight metadata keys are present. -/
theorem chunkAssignPayload_no_ciphertext_counterexample :
    ((chunkAssignPayload distChunkEx).map Prod.fst =
      ["chunkId", "fileId", "sequenceNum", "sizeBytes",
       "checksum", "iv", "authTag", "aad"]) ∧
    ¬ (∃ v, ("ciphertext_base64", v) ∈ chunkAssignPayload distChunkEx ∨
        ("ciphertextBase64", v) ∈ chunkAssignPayload distChunkEx ∨
        ("encryptedData", v) ∈ chunkAssignPayload distChunkEx) := by
  constructor
  · rfl
  · rintro ⟨v, h | h | h⟩ <;> simp [chunkAssignPayload] at h

/-- C2 amended: for every chunk, the chunk:assign payload consists of
exactly the metadata keys chunkId, fileId, sequenceNum, sizeBytes,
checksum, iv, authTag, aad — in particular it carries no ciphertext
field. -/
theorem chunkAssignPayload_keys (chunk : DistChunkRec) :
    (chunkAssignPayload chunk).map Prod.fst =
      ["chunkId", "fileId", "sequenceNum", "sizeBytes",
       "checksum", "iv", "authTag", "aad"] := rfl

/-! ### Metadata store model

Rows of the Device, Chunk and ChunkLocation tables (prisma schema), and
the in-process state of the placement, health and deletion services as a
record of the three tables.  Ids are opaque (naturals).  BigInt columns
are non-negative integers; the JavaScript number reliabilityScore is an
exact rational.  A cuid generated by a create is modelled by a fresh-id
counter. -/

inductive DeviceStatus
  | ONLINE | OFFLINE | SUSPENDED
  deriving DecidableEq, Repr

inductive ChunkStatus
  | PENDING | REPLICATING | HEALTHY | DEGRADED | LOST
  deriving DecidableEq, Repr

structure Device where
  id : Nat
  deviceId : Nat                -- logical device id
  status : DeviceStatus
  totalStorageBytes : Nat
  availableStorageBytes : Nat
  lastSeenAt : Nat              -- epoch milliseconds
  totalUptime : Nat             -- milliseconds
  totalDowntime : Nat           -- milliseconds
  reliabilityScore : ℚ
  deriving DecidableEq, Repr

structure ChunkRow where
  id : Nat
  fileId : Nat
  sequenceNum : Nat
  sizeBytes : Nat
  status : ChunkStatus
  currentReplicas : Nat
  targetReplicas : Nat
  deriving DecidableEq, Repr

structure ChunkLocationRow where
  id : Nat
  chunkId : Nat
  deviceId : Nat
  localPath : String
  isHealthy : Bool
  deriving DecidableEq, Repr

structure St where
  devices : List Device
  chunks : List ChunkRow
  locations : List ChunkLocationRow
  nextLocId : Nat
  deriving DecidableEq, Repr, Inhabited

/-- Jobs added to the Bull queues (healing queue and cleanup queue). -/
inductive Job
  | healChunk (chunkId currentReplicas targetReplicas priority : Nat)
  | deleteExcessReplicas (chunkId currentReplicas targetReplicas
      safetyMargin excessCount priority : Nat)
  deriving DecidableEq, Repr

/-- The join loc.device.status = ONLINE used by the services. -/
def deviceOnline (st : St) (deviceId : Nat) : Bool :=
  match st.devices.find? (fun d => d.id == deviceId) with
  | some d => d.status == .ONLINE
  | none => false

/-- Healthy replica count of a chunk: placements that are healthy and
whose device is ONLINE. -/
def countHealthyOnline (st : St) (chunkId : Nat) : Nat :=
  (st.locations.filter (fun l =>
    l.chunkId == chunkId && l.isHealthy && deviceOnline st l.deviceId)).length

/-! ### Device registry query (device.service.ts findHealthyDevices) -/

/-- The where clause of findHealthyDevices: ONLINE, score at least the
threshold, available storage at least the chunk size. -/
def healthyPred (minAvailableStorageBytes : Nat) (minReliabilityScore : ℚ)
    (d : Device) : Bool :=
  d.status == .ONLINE &&
    decide (minReliabilityScore ≤ d.reliabilityScore) &&
    decide (minAvailableStorageBytes ≤ d.availableStorageBytes)

/-- orderBy reliabilityScore desc, availableStorageBytes desc. -/
def devBefore (a b : Device) : Bool :=
  decide (b.reliabilityScore < a.reliabilityScore) ||
    (decide (a.reliabilityScore = b.reliabilityScore) &&
      decide (b.availableStorageBytes ≤ a.availableStorageBytes))

def insertRanked (x : Device) : List Device → List Device
  | [] => [x]
  | y :: ys => if devBefore x y then x :: y :: ys else y :: insertRanked x ys

/-- Sort by the registry ordering (insertion sort; the database order on
ties is unspecified and no verified property depends on it). -/
def rankDevices (l : List Device) : List Device :=
  l.foldr insertRanked []

theorem length_insertRanked (x : Device) (l : List Device) :
    (insertRanked x l).length = l.length + 1 := by
  induction l with
  | nil => rfl
  | cons y ys ih =>
    unfold insertRanked
    by_cases h : devBefore x y
    · simp [h]
    · simp [h, ih]

theorem length_rankDevices (l : List Device) :
    (rankDevices l).length = l.length := by
  induction l with
  | nil => rfl
  | cons y ys ih =>
    show (insertRanked y (rankDevices ys)).length = ys.length + 1
    rw [length_insertRanked, ih]

theorem mem_insertRanked {a x : Device} {l : List Device} :
    a ∈ insertRanked x l ↔ a = x ∨ a ∈ l := by
  induction l with
  | nil => simp [insertRanked]
  | cons y ys ih =>
    unfold insertRanked
    by_cases h : devBefore x y
    · simp [h]
    · simp [h, ih]
      tauto

theorem mem_rankDevices {a : Device} {l : List Device} :
    a ∈ rankDevices l ↔ a ∈ l := by
  induction l with
  | nil => simp [rankDevices]
  | cons y ys ih =>
    show a ∈ insertRanked y (rankDevices ys) ↔ _
    rw [mem_insertRanked]
    simp [ih]

/-- findHealthyDevices from device.service.ts: filter, order, take. -/
def findHealthyDevices (st : St) (minAvailableStorageBytes : Nat)
    (minReliabilityScore : ℚ) (limit : Nat) : List Device :=
  (rankDevices (st.devices.filter
    (healthyPred minAvailableStorageBytes minReliabilityScore))).take limit

theorem length_findHealthyDevices (st : St) (minb : Nat) (mins : ℚ) (lim : Nat) :
    (findHealthyDevices st minb mins lim).length =
      min lim (st.devices.filter (healthyPred minb mins)).length := by
  unfold findHealthyDevices
  rw [List.length_take, length_rankDevices]

/-! ### Chunk assignment service (modules/chunks/assignment.service.ts) -/

inductive AssignErr
  | insufficientCapacity (need found : Nat)
      -- "Not enough healthy devices available. Need ..., found ..."
  | chunkNotFound
      -- prisma update / missing chunk row
  deriving DecidableEq, Repr

/-- prisma.chunk.update where id = chunkId: rejects when no row matches. -/
def updateChunkRow (st : St) (chunkId : Nat) (f : ChunkRow → ChunkRow) :
    Except AssignErr St :=
  if st.chunks.any (fun c => c.id == chunkId) then
    .ok { st with
      chunks := st.chunks.map fun c => if c.id == chunkId then f c else c }
  else .error .chunkNotFound

/-- localPath written by the placement rows. -/
def mkLocalPath (chunkId : Nat) : String :=
  "/storage/chunks/" ++ toString chunkId

/-- The prisma.chunkLocation.create loop: creates one row per device id,
in order; returns the new state and the created rows. -/
def createLocations (st : St) (chunkId : Nat) (healthy : Bool) :
    List Nat → St × List ChunkLocationRow
  | [] => (st, [])
  | d :: ds =>
    let row : ChunkLocationRow := {
      id := st.nextLocId
      chunkId := chunkId
      deviceId := d
      localPath := mkLocalPath chunkId
      isHealthy := healthy }
    let st1 : St := { st with
      locations := st.locations ++ [row]
      nextLocId := st.nextLocId + 1 }
    let r := createLocations st1 chunkId healthy ds
    (r.1, row :: r.2)

theorem createLocations_spec (chunkId : Nat) (healthy : Bool) :
    ∀ (ds : List Nat) (st : St),
      (createLocations st chunkId healthy ds).1.locations =
        st.locations ++ (createLocations st chunkId healthy ds).2 ∧
      (createLocations st chunkId healthy ds).1.chunks = st.chunks ∧
      (createLocations st chunkId healthy ds).1.devices = st.devices ∧
      (createLocations st chunkId healthy ds).2.length = ds.length ∧
      ∀ r ∈ (createLocations st chunkId healthy ds).2,
        r.chunkId = chunkId ∧ r.isHealthy = healthy ∧ r.deviceId ∈ ds := by
  intro ds
  induction ds with
  | nil => intro st; simp [createLocations]
  | cons d ds ih =>
    intro st
    obtain ⟨hloc, hch, hdev, hlen, hrows⟩ := ih { st with
      locations := st.locations ++ [{
        id := st.nextLocId
        chunkId := chunkId
        deviceId := d
        localPath := mkLocalPath chunkId
        isHealthy := healthy }]
      nextLocId := st.nextLocId + 1 }
    refine ⟨?_, ?_, ?_, ?_, ?_⟩
    · show (createLocations _ chunkId healthy ds).1.locations = _
      rw [hloc]
      simp [createLocations]
    · exact hch
    · exact hdev
    · show (_ :: (createLocations _ chunkId healthy ds).2).length = ds.length + 1
      rw [List.length_cons, hlen]
    · intro r hr
      rcases List.mem_cons.mp hr with h | h
      · rw [h]
        exact ⟨rfl, rfl, List.mem_cons_self _ _⟩
      · obtain ⟨h1, h2, h3⟩ := hrows r h
        exact ⟨h1, h2, List.mem_cons_of_mem _ h3⟩

/-- assignChunk from assignment.service.ts.  rf is the configured
redundancy factor (config.fileProcessing.redundancyFactor). -/
def assignChunk (rf : Nat) (st : St) (chunkId : Nat) (chunkSizeBytes : Nat) :
    Except AssignErr (St × List Nat) :=
  let candidates := findHealthyDevices st chunkSizeBytes 70 (rf * 3)
  if candidates.length < rf then
    .error (.insufficientCapacity rf candidates.length)
  else
    let selectedDevices := candidates.take rf
    let deviceIds := selectedDevices.map (·.id)
    let r := createLocations st chunkId true deviceIds
    match updateChunkRow r.1 chunkId
        (fun c => { c with status := .REPLICATING, currentReplicas := 0 }) with
    | .error e => .error e
    | .ok st2 => .ok (st2, deviceIds)

theorem updateChunkRow_error {st : St} {chunkId : Nat} {f : ChunkRow → ChunkRow}
    {e : AssignErr} (h : updateChunkRow st chunkId f = .error e) :
    e = .chunkNotFound := by
  unfold updateChunkRow at h
  by_cases hc : st.chunks.any (fun c => c.id == chunkId)
  · simp [hc] at h
  · simp [hc] at h
    exact h.symm

theorem updateChunkRow_ok {st : St} {chunkId : Nat} {f : ChunkRow → ChunkRow}
    {st' : St} (h : updateChunkRow st chunkId f = .ok st') :
    st'.locations = st.locations ∧ st'.devices = st.devices ∧
      st'.chunks = st.chunks.map
        (fun c => if c.id == chunkId then f c else c) := by
  unfold updateChunkRow at h
  by_cases hc : st.chunks.any (fun c => c.id == chunkId)
  · simp [hc] at h
    refine ⟨by rw [← h], by rw [← h], ?_⟩
    rw [← h]
    simp
  · simp [hc] at h

/-- C5.  assignChunk fails with the insufficient-capacity error exactly
when fewer than rf devices satisfy the candidate predicate (ONLINE,
score at least 70, free space at least the chunk size); on success it
appends exactly rf placement rows for the chunk, all healthy, and sets
the chunk to REPLICATING with currentReplicas 0. -/
theorem assignChunk_capacity_and_placement (rf : Nat) (st : St)
    (chunkId sizeBytes : Nat) :
    ((∃ n, assignChunk rf st chunkId sizeBytes =
        .error (.insufficientCapacity rf n)) ↔
      (st.devices.filter (healthyPred sizeBytes 70)).length < rf)
    ∧ ∀ st' ids, assignChunk rf st chunkId sizeBytes = .ok (st', ids) →
        ids.length = rf ∧
        (∃ rows, st'.locations = st.locations ++ rows ∧
          rows.length = rf ∧
          ∀ r ∈ rows, r.chunkId = chunkId ∧ r.isHealthy = true) ∧
        ∀ c ∈ st'.chunks, c.id = chunkId →
          c.status = .REPLICATING ∧ c.currentReplicas = 0 := by
  have hcand := length_findHealthyDevices st sizeBytes 70 (rf * 3)
  constructor
  · constructor
    · rintro ⟨n, hn⟩
      simp only [assignChunk] at hn
      by_cases hc : (findHealthyDevices st sizeBytes 70 (rf * 3)).length < rf
      · omega
      · rw [if_neg hc] at hn
        cases hu : updateChunkRow (createLocations st chunkId true
            (((findHealthyDevices st sizeBytes 70 (rf * 3)).take rf).map (·.id))).1
            chunkId (fun c => { c with status := .REPLICATING, currentReplicas := 0 }) with
        | error e =>
          rw [hu] at hn
          simp at hn
          have he := updateChunkRow_error hu
          subst he
          simp at hn
        | ok st2 =>
          rw [hu] at hn
          simp at hn
    · intro hlt
      have hc : (findHealthyDevices st sizeBytes 70 (rf * 3)).length < rf := by
        omega
      exact ⟨_, by simp only [assignChunk]; rw [if_pos hc]⟩
  · intro st' ids h
    simp only [assignChunk] at h
    by_cases hc : (findHealthyDevices st sizeBytes 70 (rf * 3)).length < rf
    · rw [if_pos hc] at h
      simp at h
    · rw [if_neg hc] at h
      cases hu : updateChunkRow (createLocations st chunkId true
          (((findHealthyDevices st sizeBytes 70 (rf * 3)).take rf).map (·.id))).1
          chunkId (fun c => { c with status := .REPLICATING, currentReplicas := 0 }) with
      | error e =>
        rw [hu] at h
        simp at h
      | ok st2 =>
        rw [hu] at h
        rw [Except.ok.injEq, Prod.mk.injEq] at h
        obtain ⟨hst, hids⟩ := h
        have hidslen : (((findHealthyDevices st sizeBytes 70 (rf * 3)).take rf).map
            (fun d : Device => d.id)).length = rf := by
          rw [List.length_map, List.length_take]
          omega
        obtain ⟨hloc, hch, -, hlen, hrows⟩ := createLocations_spec chunkId true
          (((findHealthyDevices st sizeBytes 70 (rf * 3)).take rf).map (·.id)) st
        obtain ⟨hloc2, -, hch2⟩ := updateChunkRow_ok hu
        subst hst
        refine ⟨by rw [← hids, hidslen], ?_, ?_⟩
        · refine ⟨(createLocations st chunkId true
            (((findHealthyDevices st sizeBytes 70 (rf * 3)).take rf).map
              (·.id))).2, ?_, ?_, ?_⟩
          · rw [hloc2, hloc]
          · rw [hlen, hidslen]
          · intro r hr
            obtain ⟨h1, h2, -⟩ := hrows r hr
            exact ⟨h1, h2⟩
        · intro c hc hcid
          rw [hch2, hch] at hc
          obtain ⟨c0, hc0, hc0eq⟩ := List.mem_map.mp hc
          by_cases hid : c0.id == chunkId
          · rw [if_pos hid] at hc0eq
            rw [← hc0eq]
            exact ⟨rfl, rfl⟩
          · rw [if_neg hid] at hc0eq
            rw [← hc0eq] at hcid
            simp at hid
            exact absurd hcid hid

/-- A three-device, one-chunk placement state used to evaluate the
services on concrete inputs. -/
def stW : St where
  devices := [
    { id := 1, deviceId := 11, status := .ONLINE, totalStorageBytes := 1000,
      availableStorageBytes := 1000, lastSeenAt := 0, totalUptime := 0,
      totalDowntime := 0, reliabilityScore := 100 },
    { id := 2, deviceId := 12, status := .ONLINE, totalStorageBytes := 900,
      availableStorageBytes := 900, lastSeenAt := 0, totalUptime := 0,
      totalDowntime := 0, reliabilityScore := 100 },
    { id := 3, deviceId := 13, status := .ONLINE, totalStorageBytes := 800,
      availableStorageBytes := 800, lastSeenAt := 0, totalUptime := 0,
      totalDowntime := 0, reliabilityScore := 100 }]
  chunks := [
    { id := 1, fileId := 5, sequenceNum := 0, sizeBytes := 10,
      status := .PENDING, currentReplicas := 0, targetReplicas := 3 }]
  locations := []
  nextLocId := 100

/-- The result assignChunk computes on the sample state. -/
def assignResEx : St × List Nat :=
  (assignChunk 3 stW 1 10).toOption.getD default

/-- Witness for the assignment theorem: a concrete successful assignment
placing the chunk on three devices. -/
theorem assignChunk_capacity_and_placement_witness :
    assignChunk 3 stW 1 10 = Except.ok assignResEx ∧
      assignResEx.2.length = 3 ∧
      ¬ (stW.devices.filter (healthyPred 10 70)).length < 3 := by
  have hok : assignChunk 3 stW 1 10 = Except.ok assignResEx := by rfl
  refine ⟨hok, ?_, by decide⟩
  exact ((assignChunk_capacity_and_placement 3 stW 1 10).2
    assignResEx.1 assignResEx.2 hok).1

/-- reassignChunk from assignment.service.ts: recompute healthy holders,
exclude devices that already hold the chunk (healthy or not), insert
unhealthy placement rows for the missing replicas, set the chunk to
REPLICATING.  Returns the new state and the inserted rows. -/
def reassignChunk (st : St) (chunkId : Nat) :
    Except AssignErr (St × List ChunkLocationRow) :=
  match st.chunks.find? (fun c => c.id == chunkId) with
  | none => .error .chunkNotFound    -- "Chunk ... not found"
  | some chunk =>
    let locs := st.locations.filter (fun l => l.chunkId == chunkId)
    let healthyLocations := locs.filter
      (fun l => l.isHealthy && deviceOnline st l.deviceId)
    let missingReplicas : Int :=
      (chunk.targetReplicas : Int) - healthyLocations.length
    if missingReplicas ≤ 0 then .ok (st, [])
    else
      let existingDeviceIds := locs.map (·.deviceId)
      let candidates := findHealthyDevices st chunk.sizeBytes 70
        (missingReplicas.toNat * 2)
      let availableDevices := candidates.filter
        (fun d => ¬ existingDeviceIds.contains d.id)
      if availableDevices.length = 0 then .ok (st, [])
      else
        let devicesToAssign := availableDevices.take missingReplicas.toNat
        let r := createLocations st chunkId false (devicesToAssign.map (·.id))
        match updateChunkRow r.1 chunkId
            (fun c => { c with status := .REPLICATING }) with
        | .error e => .error e
        | .ok st2 => .ok (st2, r.2)

/-- C6.  reassignChunk never inserts a placement row for a device that
already holds any row (healthy or unhealthy) for the chunk; every row it
inserts is unhealthy, and when at least one row is inserted the chunk is
set to REPLICATING. -/
theorem reassignChunk_no_duplicate_holder (st : St) (chunkId : Nat)
    (st' : St) (rows : List ChunkLocationRow)
    (h : reassignChunk st chunkId = .ok (st', rows)) :
    (∀ r ∈ rows, r.isHealthy = false ∧
      r.deviceId ∉ (st.locations.filter
        (fun l => l.chunkId == chunkId)).map (·.deviceId)) ∧
    (rows ≠ [] → ∀ c ∈ st'.chunks, c.id = chunkId →
      c.status = .REPLICATING) := by
  simp only [reassignChunk] at h
  cases hf : st.chunks.find? (fun c => c.id == chunkId) with
  | none => rw [hf] at h; simp at h
  | some chunk =>
    simp only [hf] at h
    by_cases hm : (chunk.targetReplicas : Int) -
        ((st.locations.filter (fun l => l.chunkId == chunkId)).filter
          (fun l => l.isHealthy && deviceOnline st l.deviceId)).length ≤ 0
    · rw [if_pos hm] at h
      rw [Except.ok.injEq, Prod.mk.injEq] at h
      obtain ⟨-, hrows⟩ := h
      rw [← hrows]
      exact ⟨by intro r hr; simp at hr, by intro hne; exact absurd rfl hne⟩
    · rw [if_neg hm] at h
      by_cases ha : ((findHealthyDevices st chunk.sizeBytes 70
          (((chunk.targetReplicas : Int) -
            ((st.locations.filter (fun l => l.chunkId == chunkId)).filter
              (fun l => l.isHealthy && deviceOnline st l.deviceId)).length).toNat * 2)).filter
          (fun d => ¬ ((st.locations.filter (fun l => l.chunkId == chunkId)).map
            (·.deviceId)).contains d.id)).length = 0
      · rw [if_pos ha] at h
        rw [Except.ok.injEq, Prod.mk.injEq] at h
        obtain ⟨-, hrows⟩ := h
        rw [← hrows]
        exact ⟨by intro r hr; simp at hr, by intro hne; exact absurd rfl hne⟩
      · rw [if_neg ha] at h
        set availableDevices := (findHealthyDevices st chunk.sizeBytes 70
          (((chunk.targetReplicas : Int) -
            ((st.locations.filter (fun l => l.chunkId == chunkId)).filter
              (fun l => l.isHealthy && deviceOnline st l.deviceId)).length).toNat * 2)).filter
          (fun d => ¬ ((st.locations.filter (fun l => l.chunkId == chunkId)).map
            (·.deviceId)).contains d.id) with havail
        set missingN := ((chunk.targetReplicas : Int) -
          ((st.locations.filter (fun l => l.chunkId == chunkId)).filter
            (fun l => l.isHealthy && deviceOnline st l.deviceId)).length).toNat with hmiss
        cases hu : updateChunkRow (createLocations st chunkId false
            ((availableDevices.take missingN).map (·.id))).1 chunkId
            (fun c => { c with status := .REPLICATING }) with
        | error e => rw [hu] at h; simp at h
        | ok st2 =>
          rw [hu] at h
          rw [Except.ok.injEq, Prod.mk.injEq] at h
          obtain ⟨hst, hrows⟩ := h
          obtain ⟨-, hch, -, -, hprops⟩ := createLocations_spec chunkId false
            ((availableDevices.take missingN).map (·.id)) st
          obtain ⟨-, -, hch2⟩ := updateChunkRow_ok hu
          constructor
          · intro r hr
            rw [← hrows] at hr
            obtain ⟨-, hh, hdev⟩ := hprops r hr
            refine ⟨hh, ?_⟩
            obtain ⟨d, hd, hdid⟩ := List.mem_map.mp hdev
            have hd2 : d ∈ availableDevices := List.take_subset _ _ hd
            rw [havail] at hd2
            have hnotin := List.of_mem_filter hd2
            simp at hnotin
            rw [← hdid]
            simpa using hnotin
          · intro _hne c hcmem hcid
            subst hst
            rw [hch2, hch] at hcmem
            obtain ⟨c0, hc0, hc0eq⟩ := List.mem_map.mp hcmem
            by_cases hid : c0.id == chunkId
            · rw [if_pos hid] at hc0eq
              rw [← hc0eq]
            · rw [if_neg hid] at hc0eq
              rw [← hc0eq] at hcid
              simp at hid
              exact absurd hcid hid

/-- A state for evaluating reassignChunk: four devices, one degraded
chunk held (healthy) by device 1 and (unhealthy) by device 2. -/
def stC6 : St where
  devices := [
    { id := 1, deviceId := 11, status := .ONLINE, totalStorageBytes := 1000,
      availableStorageBytes := 1000, lastSeenAt := 0, totalUptime := 0,
      totalDowntime := 0, reliabilityScore := 100 },
    { id := 2, deviceId := 12, status := .ONLINE, totalStorageBytes := 900,
      availableStorageBytes := 900, lastSeenAt := 0, totalUptime := 0,
      totalDowntime := 0, reliabilityScore := 100 },
    { id := 3, deviceId := 13, status := .ONLINE, totalStorageBytes := 800,
      availableStorageBytes := 800, lastSeenAt := 0, totalUptime := 0,
      totalDowntime := 0, reliabilityScore := 100 },
    { id := 4, deviceId := 14, status := .ONLINE, totalStorageBytes := 700,
      availableStorageBytes := 700, lastSeenAt := 0, totalUptime := 0,
      totalDowntime := 0, reliabilityScore := 100 }]
  chunks := [
    { id := 1, fileId := 5, sequenceNum := 0, sizeBytes := 10,
      status := .DEGRADED, currentReplicas := 1, targetReplicas := 3 }]
  locations := [
    { id := 50, chunkId := 1, deviceId := 1,
      localPath := mkLocalPath 1, isHealthy := true },
    { id := 51, chunkId := 1, deviceId := 2,
      localPath := mkLocalPath 1, isHealthy := false }]
  nextLocId := 52

def reassignResEx : St × List ChunkLocationRow :=
  (reassignChunk stC6 1).toOption.getD default

/-- Witness for the reassignment theorem: a concrete reassignment that
inserts rows, all unhealthy, for devices not yet holding the chunk. -/
theorem reassignChunk_no_duplicate_holder_witness :
    reassignChunk stC6 1 = Except.ok reassignResEx ∧
      reassignResEx.2 ≠ [] ∧
      ∀ r ∈ reassignResEx.2, r.isHealthy = false := by
  have hok : reassignChunk stC6 1 = Except.ok reassignResEx := by rfl
  refine ⟨hok, by decide, fun r hr => ?_⟩
  exact ((reassignChunk_no_duplicate_holder stC6 1 reassignResEx.1
    reassignResEx.2 hok).1 r hr).1

/-! ### Health monitoring service (modules/replication/health.service.ts) -/

/-- Healing priority from queueChunkHealing; the comparison
currentReplicas < targetReplicas / 2 is JavaScript floating-point
division, modelled exactly on the rationals. -/
def queuePriority (currentReplicas targetReplicas : Nat) : Nat :=
  if currentReplicas = 0 then 1
  else if (currentReplicas : ℚ) < (targetReplicas : ℚ) / 2 then 2
  else 3

/-- The loop of detectAffectedChunks over the snapshot of the device's
placement rows (each carrying its included chunk row): flip the row to
unhealthy, recount healthy replicas, and when below target enqueue a
healing job and downgrade the chunk. -/
def detectLoop : St → List Job → List Nat →
    List (ChunkLocationRow × Option ChunkRow) →
    Except AssignErr (St × List Job × List Nat)
  | st, jobs, affected, [] => .ok (st, jobs, affected)
  | st, jobs, affected, (loc, osnap) :: rest =>
    let st1 : St := { st with
      locations := st.locations.map fun l =>
        if l.id == loc.id then { l with isHealthy := false } else l }
    match osnap with
    | none => .error .chunkNotFound
    | some chunk =>
      let healthyReplicas := countHealthyOnline st1 loc.chunkId
      if healthyReplicas < chunk.targetReplicas then
        match updateChunkRow st1 loc.chunkId (fun c =>
            { c with
              status := if healthyReplicas = 0 then .LOST else .DEGRADED
              currentReplicas := healthyReplicas }) with
        | .error e => .error e
        | .ok st2 =>
          detectLoop st2
            (jobs ++ [.healChunk loc.chunkId healthyReplicas
              chunk.targetReplicas
              (queuePriority healthyReplicas chunk.targetReplicas)])
            (affected ++ [loc.chunkId]) rest
      else
        detectLoop st1 jobs affected rest

/-- detectAffectedChunks from health.service.ts.  The snapshot is the
findMany over the device's placement rows with their chunks included. -/
def detectAffectedChunks (st : St) (deviceId : Nat) :
    Except AssignErr (St × List Job × List Nat) :=
  detectLoop st [] []
    ((st.locations.filter (fun l => l.deviceId == deviceId)).map
      (fun l => (l, st.chunks.find? (fun c => c.id == l.chunkId))))

/-- Flip to unhealthy every row whose id is listed. -/
def flipLocations (ids : List Nat) (l : ChunkLocationRow) : ChunkLocationRow :=
  if ids.contains l.id then { l with isHealthy := false } else l

theorem map_flipLocations_nil (l : List ChunkLocationRow) :
    l.map (flipLocations []) = l := by
  induction l with
  | nil => rfl
  | cons x xs ih =>
    show flipLocations [] x :: xs.map (flipLocations []) = x :: xs
    rw [show flipLocations [] x = x from rfl, ih]

theorem flipLocations_cons (locId : Nat) (ids : List Nat)
    (r : ChunkLocationRow) :
    flipLocations ids
        (if r.id == locId then { r with isHealthy := false } else r) =
      flipLocations (locId :: ids) r := by
  unfold flipLocations
  by_cases h : r.id = locId
  · simp [h]
  · simp [h]

theorem detectLoop_locations :
    ∀ (snap : List (ChunkLocationRow × Option ChunkRow)) (st : St)
      (jobs : List Job) (aff : List Nat) (out : St × List Job × List Nat),
      detectLoop st jobs aff snap = .ok out →
      out.1.locations =
        st.locations.map (flipLocations (snap.map (fun p => p.1.id))) := by
  intro snap
  induction snap with
  | nil =>
    intro st jobs aff out h
    simp only [detectLoop] at h
    rw [Except.ok.injEq] at h
    rw [← h]
    show st.locations = _
    rw [show List.map (fun p : ChunkLocationRow × Option ChunkRow => p.1.id)
      [] = [] from rfl, map_flipLocations_nil]
  | cons p rest ih =>
    obtain ⟨loc, osnap⟩ := p
    intro st jobs aff out h
    cases osnap with
    | none =>
      simp only [detectLoop] at h
      exact absurd h (by simp)
    | some chunk =>
      simp only [detectLoop] at h
      have hstep : ∀ (st' : St) (jobs' : List Job) (aff' : List Nat),
          detectLoop st' jobs' aff' rest = .ok out →
          st'.locations = st.locations.map
            (fun l => if l.id == loc.id then { l with isHealthy := false } else l) →
          out.1.locations =
            st.locations.map
              (flipLocations (((loc, some chunk) :: rest).map (fun p => p.1.id))) := by
        intro st' jobs' aff' hrec hloc'
        have := ih st' jobs' aff' out hrec
        rw [this, hloc', List.map_map]
        apply List.map_congr_left
        intro a _
        exact flipLocations_cons loc.id _ a
      split at h
      · split at h
        · exact absurd h (by simp)
        · rename_i st2 hu
          exact hstep st2 _ _ h ((updateChunkRow_ok hu).1)
      · exact hstep _ _ _ h rfl

theorem flipLocations_deviceId (ids : List Nat) (l : ChunkLocationRow) :
    (flipLocations ids l).deviceId = l.deviceId := by
  unfold flipLocations
  split <;> rfl

theorem flipLocations_isHealthy_of_mem (ids : List Nat)
    (l : ChunkLocationRow) (h : l.id ∈ ids) :
    (flipLocations ids l).isHealthy = false := by
  unfold flipLocations
  rw [if_pos (List.elem_eq_true_of_mem h)]

/-- C7.  After detectAffectedChunks(d) completes, every placement row of
device d is unhealthy, whether or not its chunk was below target. -/
theorem detectAffectedChunks_all_unhealthy (st : St) (deviceId : Nat)
    (out : St × List Job × List Nat)
    (h : detectAffectedChunks st deviceId = .ok out) :
    ∀ r ∈ out.1.locations, r.deviceId = deviceId → r.isHealthy = false := by
  intro r hr hdev
  have hchar := detectLoop_locations _ _ _ _ _ h
  rw [hchar] at hr
  obtain ⟨l, hl, hleq⟩ := List.mem_map.mp hr
  have hdev' : l.deviceId = deviceId := by
    rw [← hdev, ← hleq, flipLocations_deviceId]
  have hfil : l ∈ st.locations.filter (fun x => x.deviceId == deviceId) :=
    List.mem_filter.mpr ⟨hl, by simp [hdev']⟩
  have hid : l.id ∈ ((st.locations.filter
      (fun x => x.deviceId == deviceId)).map
      (fun x => (x, st.chunks.find? (fun c => c.id == x.chunkId)))).map
      (fun p => p.1.id) :=
    List.mem_map.mpr ⟨(l, st.chunks.find? (fun c => c.id == l.chunkId)),
      List.mem_map.mpr ⟨l, hfil, rfl⟩, rfl⟩
  rw [← hleq]
  exact flipLocations_isHealthy_of_mem _ _ hid

/-- A state for evaluating detectAffectedChunks: one chunk held healthy
by devices 1 and 2; device 1 goes offline. -/
def stC7 : St where
  devices := [
    { id := 1, deviceId := 11, status := .OFFLINE, totalStorageBytes := 1000,
      availableStorageBytes := 1000, lastSeenAt := 0, totalUptime := 0,
      totalDowntime := 0, reliabilityScore := 100 },
    { id := 2, deviceId := 12, status := .ONLINE, totalStorageBytes := 900,
      availableStorageBytes := 900, lastSeenAt := 0, totalUptime := 0,
      totalDowntime := 0, reliabilityScore := 100 }]
  chunks := [
    { id := 1, fileId := 5, sequenceNum := 0, sizeBytes := 10,
      status := .HEALTHY, currentReplicas := 2, targetReplicas := 3 }]
  locations := [
    { id := 50, chunkId := 1, deviceId := 1,
      localPath := mkLocalPath 1, isHealthy := true },
    { id := 51, chunkId := 1, deviceId := 2,
      localPath := mkLocalPath 1, isHealthy := true }]
  nextLocId := 52

def detectResEx : St × List Job × List Nat :=
  (detectAffectedChunks stC7 1).toOption.getD default

/-- Witness for the detect-affected theorem: the concrete scan marks
device 1's placement unhealthy. -/
theorem detectAffectedChunks_all_unhealthy_witness :
    detectAffectedChunks stC7 1 = Except.ok detectResEx ∧
      ∀ r ∈ detectResEx.1.locations, r.deviceId = 1 → r.isHealthy = false := by
  have hok : detectAffectedChunks stC7 1 = Except.ok detectResEx := by rfl
  exact ⟨hok, detectAffectedChunks_all_unhealthy stC7 1 detectResEx hok⟩

/-! ### scanAllChunks and the excess-replica scan -/

structure ChunkHealthStatus where
  chunkId : Nat
  fileId : Nat
  sequenceNum : Nat
  currentReplicas : Nat
  targetReplicas : Nat
  healthyReplicas : Nat
  status : ChunkStatus
  needsHealing : Bool
  deriving DecidableEq, Repr

/-- The loop of scanAllChunks: report health per chunk and queue
heal-chunk jobs for chunks below target.  It enqueues healing jobs only;
no other job kind is produced. -/
def scanLoop (st : St) : List ChunkRow → List ChunkHealthStatus × List Job
  | [] => ([], [])
  | chunk :: rest =>
    let healthyReplicas := countHealthyOnline st chunk.id
    let needsHealing := decide (healthyReplicas < chunk.targetReplicas)
    let r := scanLoop st rest
    ({ chunkId := chunk.id
       fileId := chunk.fileId
       sequenceNum := chunk.sequenceNum
       currentReplicas := chunk.currentReplicas
       targetReplicas := chunk.targetReplicas
       healthyReplicas := healthyReplicas
       status := chunk.status
       needsHealing := needsHealing } :: r.1,
     (if needsHealing then
        [.healChunk chunk.id healthyReplicas chunk.targetReplicas
          (queuePriority healthyReplicas chunk.targetReplicas)]
      else []) ++ r.2)

/-- scanAllChunks from health.service.ts: scan chunks in state
REPLICATING, HEALTHY or DEGRADED. -/
def scanAllChunks (st : St) : List ChunkHealthStatus × List Job :=
  scanLoop st (st.chunks.filter fun c =>
    c.status == .REPLICATING || c.status == .HEALTHY || c.status == .DEGRADED)

/-- An over-replicated state: chunk 1 with target 3 is held healthy by
six ONLINE devices. -/
def stC8 : St where
  devices := [
    { id := 1, deviceId := 11, status := .ONLINE, totalStorageBytes := 1000,
      availableStorageBytes := 1000, lastSeenAt := 0, totalUptime := 0,
      totalDowntime := 0, reliabilityScore := 100 },
    { id := 2, deviceId := 12, status := .ONLINE, totalStorageBytes := 1000,
      availableStorageBytes := 1000, lastSeenAt := 0, totalUptime := 0,
      totalDowntime := 0, reliabilityScore := 100 },
    { id := 3, deviceId := 13, status := .ONLINE, totalStorageBytes := 1000,
      availableStorageBytes := 1000, lastSeenAt := 0, totalUptime := 0,
      totalDowntime := 0, reliabilityScore := 100 },
    { id := 4, deviceId := 14, status := .ONLINE, totalStorageBytes := 1000,
      availableStorageBytes := 1000, lastSeenAt := 0, totalUptime := 0,
      totalDowntime := 0, reliabilityScore := 100 },
    { id := 5, deviceId := 15, status := .ONLINE, totalStorageBytes := 1000,
      availableStorageBytes := 1000, lastSeenAt := 0, totalUptime := 0,
      totalDowntime := 0, reliabilityScore := 100 },
    { id := 6, deviceId := 16, status := .ONLINE, totalStorageBytes := 1000,
      availableStorageBytes := 1000, lastSeenAt := 0, totalUptime := 0,
      totalDowntime := 0, reliabilityScore := 100 }]
  chunks := [
    { id := 1, fileId := 5, sequenceNum := 0, sizeBytes := 10,
      status := .HEALTHY, currentReplicas := 6, targetReplicas := 3 }]
  locations := [
    { id := 50, chunkId := 1, deviceId := 1,
      localPath := mkLocalPath 1, isHealthy := true },
    { id := 51, chunkId := 1, deviceId := 2,
      localPath := mkLocalPath 1, isHealthy := true },
    { id := 52, chunkId := 1, deviceId := 3,
      localPath := mkLocalPath 1, isHealthy := true },
    { id := 53, chunkId := 1, deviceId := 4,
      localPath := mkLocalPath 1, isHealthy := true },
    { id := 54, chunkId := 1, deviceId := 5,
      localPath := mkLocalPath 1, isHealthy := true },
    { id := 55, chunkId := 1, deviceId := 6,
      localPath := mkLocalPath 1, isHealthy := true }]
  nextLocId := 56

/-- C8 counterexample: in the concrete over-replicated state a scanned
chunk exceeds target plus safety margin, yet scanAllChunks enqueues no
job at all — in particular no excess-replica deletion job. -/
theorem scanAllChunks_enqueues_no_trim_counterexample :
    (∃ c ∈ stC8.chunks.filter (fun c =>
        c.status == .REPLICATING || c.status == .HEALTHY ||
          c.status == .DEGRADED),
      c.targetReplicas + 2 < countHealthyOnline stC8 c.id) ∧
    (scanAllChunks stC8).2 = [] := by
  decide

/-- Safety margin of the deletion service (deletion.service.ts). -/
def SAFETY_MARGIN : Nat := 2

/-- checkAndQueueExcessReplicaDeletion from deletion.service.ts: reload
the chunk, recount healthy replicas on ONLINE devices, and queue a
delete-excess-replicas cleanup job when the count exceeds
targetReplicas + SAFETY_MARGIN.  Returns the queued jobs. -/
def checkAndQueueExcessReplicaDeletion (st : St) (chunkId : Nat) : List Job :=
  match st.chunks.find? (fun c => c.id == chunkId) with
  | none => []
  | some chunk =>
    let currentReplicas := countHealthyOnline st chunkId
    let maxAllowed := chunk.targetReplicas + SAFETY_MARGIN
    if maxAllowed < currentReplicas then
      [.deleteExcessReplicas chunkId currentReplicas chunk.targetReplicas
        SAFETY_MARGIN (currentReplicas - maxAllowed) 3]
    else []

/-- The loop of scanAndCleanupExcessReplicas over all chunk rows. -/
def scanAndCleanupLoop (st : St) : List ChunkRow → List Job
  | [] => []
  | chunk :: rest =>
    let healthyLocations := countHealthyOnline st chunk.id
    let maxAllowed := chunk.targetReplicas + SAFETY_MARGIN
    (if maxAllowed < healthyLocations then
      checkAndQueueExcessReplicaDeletion st chunk.id
    else []) ++ scanAndCleanupLoop st rest

/-- scanAndCleanupExcessReplicas from deletion.service.ts, run
periodically by the health scheduler: scans every chunk. -/
def scanAndCleanupExcessReplicas (st : St) : List Job :=
  scanAndCleanupLoop st st.chunks

theorem find?_chunk_of_nodup :
    ∀ (l : List ChunkRow), (l.map (·.id)).Nodup →
      ∀ c ∈ l, l.find? (fun x => x.id == c.id) = some c := by
  intro l
  induction l with
  | nil => intro _ c hc; simp at hc
  | cons x xs ih =>
    intro hnd c hc
    rw [List.map_cons, List.nodup_cons] at hnd
    obtain ⟨hx, hxs⟩ := hnd
    rcases List.mem_cons.mp hc with rfl | hmem
    · rw [List.find?_cons_of_pos]
      simp
    · rw [List.find?_cons_of_neg]
      · exact ih hxs c hmem
      · simp only [beq_iff_eq]
        intro heq
        apply hx
        rw [heq]
        exact List.mem_map.mpr ⟨c, hmem, rfl⟩

theorem scanAndCleanupLoop_mem (st : St) (c : ChunkRow)
    (hfind : st.chunks.find? (fun x => x.id == c.id) = some c)
    (hcond : c.targetReplicas + SAFETY_MARGIN < countHealthyOnline st c.id) :
    ∀ l : List ChunkRow, c ∈ l →
      Job.deleteExcessReplicas c.id (countHealthyOnline st c.id)
        c.targetReplicas SAFETY_MARGIN
        (countHealthyOnline st c.id - (c.targetReplicas + SAFETY_MARGIN)) 3 ∈
        scanAndCleanupLoop st l := by
  intro l
  induction l with
  | nil => intro hc; simp at hc
  | cons x xs ih =>
    intro hc
    rcases List.mem_cons.mp hc with rfl | hmem
    · apply List.mem_append_left
      simp only [scanAndCleanupLoop, if_pos hcond]
      unfold checkAndQueueExcessReplicaDeletion
      simp only [hfind]
      rw [if_pos hcond]
      exact List.mem_singleton.mpr rfl
    · exact List.mem_append_right _ (ih hmem)

/-- C8 amended: the periodic excess-replica scan
(scanAndCleanupExcessReplicas of the deletion service, not scanAllChunks)
queues a delete-excess-replicas job for every chunk whose healthy
placements on ONLINE devices exceed targetReplicas + SAFETY_MARGIN. -/
theorem scanAndCleanupExcessReplicas_queues_deletion (st : St)
    (hnodup : (st.chunks.map (·.id)).Nodup) :
    ∀ c ∈ st.chunks,
      c.targetReplicas + SAFETY_MARGIN < countHealthyOnline st c.id →
      Job.deleteExcessReplicas c.id (countHealthyOnline st c.id)
        c.targetReplicas SAFETY_MARGIN
        (countHealthyOnline st c.id - (c.targetReplicas + SAFETY_MARGIN)) 3 ∈
        scanAndCleanupExcessReplicas st := by
  intro c hc hcond
  exact scanAndCleanupLoop_mem st c
    (find?_chunk_of_nodup st.chunks hnodup c hc) hcond st.chunks hc

/-- The over-replicated chunk of the sample state. -/
def chunkC8 : ChunkRow where
  id := 1
  fileId := 5
  sequenceNum := 0
  sizeBytes := 10
  status := .HEALTHY
  currentReplicas := 6
  targetReplicas := 3

/-- Witness for the amended excess-replica theorem at the concrete
over-replicated state. -/
theorem scanAndCleanupExcessReplicas_queues_deletion_witness :
    Job.deleteExcessReplicas 1 6 3 2 1 3 ∈
      scanAndCleanupExcessReplicas stC8 := by
  have hnd : (stC8.chunks.map (·.id)).Nodup := by decide
  have hmem : chunkC8 ∈ stC8.chunks := by decide
  have hcond : chunkC8.targetReplicas + SAFETY_MARGIN <
      countHealthyOnline stC8 chunkC8.id := by decide
  exact scanAndCleanupExcessReplicas_queues_deletion stC8 hnd chunkC8
    hmem hcond

/-! ### Device lifecycle (modules/devices/device.service.ts)

Operations on a single device row.  Timestamps are epoch milliseconds;
the system clock is monotone (Date.now() differences are non-negative),
modelled by truncated subtraction. -/

/-- Math.round for the non-negative values produced by the score
formula: round half up. -/
def jsRound (x : ℚ) : ℤ := ⌊x + 1 / 2⌋

/-- Rounding to two decimals: Math.round(x * 100) / 100. -/
def round2 (x : ℚ) : ℚ := (jsRound (x * 100) : ℚ) / 100

/-- calculateReliabilityScore from device.service.ts:
Math.max(0, Math.min(100, round2((uptime / totalTime) * 100))), and 100
for a brand-new device with no recorded time. -/
def calculateReliabilityScore (totalUptime totalDowntime : Nat) : ℚ :=
  let totalTime : ℚ := (totalUptime : ℚ) + (totalDowntime : ℚ)
  if totalTime = 0 then 100
  else
    let uptimePercentage := (totalUptime : ℚ) / totalTime * 100
    max 0 (min 100 (round2 uptimePercentage))

structure DeviceRegistrationPayload where
  deviceId : Nat
  deviceType : Nat
  userId : Nat
  totalStorageBytes : Nat
  deriving DecidableEq, Repr

/-- registerDevice from device.service.ts: upsert by logical device id.
A new device starts ONLINE with a perfect score; a re-registration sets
the row ONLINE, overwrites both capacity columns from the payload, and
when the device was OFFLINE adds the elapsed downtime and recomputes the
score. -/
def registerDevice (existing : Option Device)
    (payload : DeviceRegistrationPayload) (now : Nat) (freshId : Nat) :
    Device :=
  match existing with
  | none =>
    { id := freshId
      deviceId := payload.deviceId
      status := .ONLINE
      totalStorageBytes := payload.totalStorageBytes
      availableStorageBytes := payload.totalStorageBytes
      lastSeenAt := now
      totalUptime := 0
      totalDowntime := 0
      reliabilityScore := 100 }
  | some d =>
    let wasOffline := d.status = .OFFLINE
    let additionalDowntime := if wasOffline then now - d.lastSeenAt else 0
    { d with
      status := .ONLINE
      lastSeenAt := now
      totalStorageBytes := payload.totalStorageBytes
      availableStorageBytes := payload.totalStorageBytes
      totalDowntime :=
        if wasOffline then d.totalDowntime + additionalDowntime
        else d.totalDowntime
      reliabilityScore :=
        if wasOffline then
          calculateReliabilityScore d.totalUptime
            (d.totalDowntime + additionalDowntime)
        else d.reliabilityScore }

/-- updateDeviceHeartbeat from device.service.ts: refresh lastSeenAt and
capacity, add the elapsed time to the uptime; the stored score is not
recomputed. -/
def updateDeviceHeartbeat (now availableStorageBytes : Nat) (d : Device) :
    Device :=
  { d with
    lastSeenAt := now
    availableStorageBytes := availableStorageBytes
    status := .ONLINE
    totalUptime := d.totalUptime + (now - d.lastSeenAt) }

/-- markDeviceOffline from device.service.ts: on an ONLINE device, add
the elapsed time to the downtime, recompute the score and set OFFLINE;
otherwise do nothing. -/
def markDeviceOffline (now : Nat) (d : Device) : Device :=
  if d.status = .ONLINE then
    let timeSinceLastSeen := now - d.lastSeenAt
    let newTotalDowntime := d.totalDowntime + timeSinceLastSeen
    { d with
      status := .OFFLINE
      lastSeenAt := now
      totalDowntime := newTotalDowntime
      reliabilityScore :=
        calculateReliabilityScore d.totalUptime newTotalDowntime }
  else d

/-- A reachable run: register at 0, go offline at 2 (score drops to 0),
re-register at 2, heartbeat at 10002 (uptime accrues, score stays
stale). -/
def d0C9 : Device := registerDevice none ⟨7, 0, 1, 10000000000⟩ 0 1
def d1C9 : Device := markDeviceOffline 2 d0C9
def d2C9 : Device := registerDevice (some d1C9) ⟨7, 0, 1, 10000000000⟩ 2 1
def d3C9 : Device := updateDeviceHeartbeat 10002 10000000000 d2C9

theorem calcScore_0_2 : calculateReliabilityScore 0 2 = 0 := by
  simp only [calculateReliabilityScore, round2, jsRound]
  rw [if_neg (by norm_num)]
  have hf : ⌊((0 : ℕ) : ℚ) / (((0 : ℕ) : ℚ) + ((2 : ℕ) : ℚ)) * 100 * 100 +
      1 / 2⌋ = 0 := by
    have hx : ((0 : ℕ) : ℚ) / (((0 : ℕ) : ℚ) + ((2 : ℕ) : ℚ)) * 100 * 100 +
        1 / 2 = 1 / 2 := by norm_num
    rw [hx, Int.floor_eq_iff]
    norm_num
  rw [hf]
  norm_num

theorem calcScore_10000_3 : calculateReliabilityScore 10000 3 = 9997 / 100 := by
  simp only [calculateReliabilityScore, round2, jsRound]
  rw [if_neg (by norm_num)]
  have hf : ⌊((10000 : ℕ) : ℚ) / (((10000 : ℕ) : ℚ) + ((3 : ℕ) : ℚ)) * 100 * 100 +
      1 / 2⌋ = 9997 := by
    have hx : ((10000 : ℕ) : ℚ) / (((10000 : ℕ) : ℚ) + ((3 : ℕ) : ℚ)) * 100 * 100 +
        1 / 2 = 200010003 / 20006 := by norm_num
    rw [hx, Int.floor_eq_iff]
    norm_num
  rw [hf]
  rw [min_eq_right (by norm_num), max_eq_right (by norm_num)]
  norm_num

/-- C9 counterexample: on a reachable device row whose stored score is
stale (heartbeats add uptime without recomputing the score), a single
ONLINE-to-OFFLINE transition increases the stored reliability score. -/
theorem markDeviceOffline_score_increases_counterexample :
    d3C9.status = DeviceStatus.ONLINE ∧
      d3C9.reliabilityScore <
        (markDeviceOffline 10003 d3C9).reliabilityScore := by
  have h3 : d3C9.reliabilityScore = calculateReliabilityScore 0 2 := rfl
  have hm : (markDeviceOffline 10003 d3C9).reliabilityScore =
      calculateReliabilityScore 10000 3 := rfl
  refine ⟨rfl, ?_⟩
  rw [h3, hm, calcScore_0_2, calcScore_10000_3]
  norm_num

theorem round2_mono {x y : ℚ} (h : x ≤ y) : round2 x ≤ round2 y := by
  unfold round2 jsRound
  have hfloor : ⌊x * 100 + 1 / 2⌋ ≤ ⌊y * 100 + 1 / 2⌋ := by
    apply Int.floor_le_floor
    linarith
  have : ((⌊x * 100 + 1 / 2⌋ : ℤ) : ℚ) ≤ ((⌊y * 100 + 1 / 2⌋ : ℤ) : ℚ) := by
    exact_mod_cast hfloor
  linarith

/-- The score formula is antitone in added downtime. -/
theorem calculateReliabilityScore_antitone (u dn e : Nat) :
    calculateReliabilityScore u (dn + e) ≤ calculateReliabilityScore u dn := by
  unfold calculateReliabilityScore
  by_cases hT : ((u : ℚ) + (dn : ℚ)) = 0
  · rw [if_pos hT]
    by_cases hT' : ((u : ℚ) + ((dn + e : ℕ) : ℚ)) = 0
    · rw [if_pos hT']
    · rw [if_neg hT']
      apply le_trans (max_le (by norm_num) (min_le_left _ _))
      norm_num
  · have hu0 : (0 : ℚ) ≤ (u : ℚ) := by positivity
    have hdn0 : (0 : ℚ) ≤ (dn : ℚ) := by positivity
    have hTpos : 0 < (u : ℚ) + (dn : ℚ) :=
      lt_of_le_of_ne (by positivity) (Ne.symm hT)
    have hT'cast : ((u : ℚ) + ((dn + e : ℕ) : ℚ)) =
        (u : ℚ) + (dn : ℚ) + (e : ℚ) := by
      push_cast
      ring
    have hT'pos : 0 < (u : ℚ) + ((dn + e : ℕ) : ℚ) := by
      rw [hT'cast]
      have : (0 : ℚ) ≤ (e : ℚ) := by positivity
      linarith
    rw [if_neg (ne_of_gt hTpos), if_neg (ne_of_gt hT'pos)]
    apply max_le_max le_rfl
    apply min_le_min le_rfl
    apply round2_mono
    have hdiv : (u : ℚ) / ((u : ℚ) + ((dn + e : ℕ) : ℚ)) ≤
        (u : ℚ) / ((u : ℚ) + (dn : ℚ)) := by
      apply div_le_div_of_nonneg_left hu0 hTpos
      rw [hT'cast]
      have : (0 : ℚ) ≤ (e : ℚ) := by positivity
      linarith
    linarith

/-- C9 amended: across one markDeviceOffline transition of an ONLINE
device whose stored score is fresh (equal to the score of its stored
counters), the score does not increase; equivalently, the recomputed
score after added downtime is at most the score recomputed from the
pre-call counters. -/
theorem markDeviceOffline_fresh_score_non_increasing (d : Device)
    (now : Nat) (h1 : d.status = .ONLINE)
    (h2 : d.reliabilityScore =
      calculateReliabilityScore d.totalUptime d.totalDowntime) :
    (markDeviceOffline now d).reliabilityScore ≤ d.reliabilityScore := by
  unfold markDeviceOffline
  rw [if_pos h1]
  show calculateReliabilityScore d.totalUptime
    (d.totalDowntime + (now - d.lastSeenAt)) ≤ d.reliabilityScore
  rw [h2]
  exact calculateReliabilityScore_antitone _ _ _

/-- Witness for the amended score theorem: a freshly registered device
marked offline. -/
theorem markDeviceOffline_fresh_score_non_increasing_witness :
    d0C9.status = DeviceStatus.ONLINE ∧
      d0C9.reliabilityScore =
        calculateReliabilityScore d0C9.totalUptime d0C9.totalDowntime ∧
      (markDeviceOffline 5 d0C9).reliabilityScore ≤ d0C9.reliabilityScore := by
  have hfresh : d0C9.reliabilityScore =
      calculateReliabilityScore d0C9.totalUptime d0C9.totalDowntime := by
    show (100 : ℚ) = calculateReliabilityScore 0 0
    unfold calculateReliabilityScore
    rw [if_pos (by norm_num)]
  refine ⟨rfl, hfresh, ?_⟩
  exact markDeviceOffline_fresh_score_non_increasing d0C9 5 rfl hfresh

/-- C10.  Re-registering a known device overwrites its tracked free
capacity: the updated row's availableStorageBytes (and
totalStorageBytes) equal the totalStorageBytes of the registration
payload, regardless of the previous row. -/
theorem registerDevice_overwrites_available_capacity (d : Device)
    (payload : DeviceRegistrationPayload) (now freshId : Nat) :
    (registerDevice (some d) payload now
        freshId).availableStorageBytes = payload.totalStorageBytes ∧
      (registerDevice (some d) payload now
        freshId).totalStorageBytes = payload.totalStorageBytes := by
  constructor <;> rfl

end Vyom
